import Mathlib

/-!
Verification development for the `nvim_notes` / `nvim_diary_template` plugin.

The Python source is shallowly embedded: the structured records
(`GitHubIssue`, `GitHubIssueComment`, `CalendarEvent`, …) become Lean
structures, in-place mutation becomes functional update, Python exceptions
become `Except PyErr`, and the remote GitHub / calendar services are
modelled by an environment of pure response functions plus an explicit
trace of the remote calls that a method performs.
-/

deriving instance DecidableEq for Except

/-- Python exceptions that the embedded code can raise. -/
inductive PyErr where
  | attrError
  | keyErr
  | indexErr
deriving DecidableEq, Repr

/-- Structure `GitHubIssueComment` from `classes/github_issue_class.py`, as used by
`make_issues.py` and `nvim_github_class.py`: comment number (0 is the issue
body), body lines, marker tags and the formatted update time. -/
structure GitHubIssueComment where
  number : Nat
  body : List String
  tags : List String
  updated_at : String
deriving DecidableEq, Repr

/-- Structure `GitHubIssue` from `classes/github_issue_class.py` as used by the
sources: remote number, completion flag, title, all comments (index 0 is
the issue body), labels and metadata marker tags. -/
structure GitHubIssue where
  number : Nat
  complete : Bool
  title : String
  all_comments : List GitHubIssueComment
  labels : List String
  metadata : List String
deriving DecidableEq, Repr

/-! Section locator (`helpers/neovim_helpers.py`, `get_section_line`) -/

/-- The loop body of `get_section_line`: Python's
`for line_index, line in enumerate(reversed(buffer_contents)): if line == section_line: section_index = line_index`
with the running accumulator `acc` (initially `-1`).  Note the loop has no
`break`: every match overwrites the accumulator. -/
def section_scan (section_line : String) : Int → List String → Int → Int
  | _, [], acc => acc
  | i, l :: rest, acc =>
      section_scan section_line (i + 1) rest (if l = section_line then i else acc)

/-- Function `get_section_line(buffer_contents, section_line)`:
`final_index = len(buffer_contents) - section_index`. -/
def get_section_line (buffer_contents : List String) (section_line : String) : Int :=
  (buffer_contents.length : Int) - section_scan section_line 0 buffer_contents.reverse (-1)

theorem section_scan_step (s x : String) (xs : List String) (i acc : Int) :
    section_scan s i (x :: xs) acc
      = section_scan s (i + 1) xs (if x = s then i else acc) := rfl

theorem section_scan_not_mem (s : String) :
    ∀ (l : List String) (i acc : Int), s ∉ l → section_scan s i l acc = acc := by
  intro l
  induction l with
  | nil => intro i acc _; rfl
  | cons x xs ih =>
      intro i acc h
      have hx : x ≠ s := fun hxs => h (hxs ▸ List.mem_cons_self x xs)
      have hxs : s ∉ xs := fun hm => h (List.mem_cons_of_mem x hm)
      rw [section_scan_step, if_neg hx, ih (i + 1) acc hxs]

theorem section_scan_cases (s : String) :
    ∀ (l : List String) (i acc : Int),
      section_scan s i l acc = acc ∨
        (i ≤ section_scan s i l acc ∧ section_scan s i l acc < i + l.length) := by
  intro l
  induction l with
  | nil => intro i acc; exact Or.inl rfl
  | cons x xs ih =>
      intro i acc
      rw [section_scan_step]
      have hlen : ((x :: xs).length : Int) = (xs.length : Int) + 1 := by
        simp [List.length_cons]
      by_cases hx : x = s
      · rw [if_pos hx]
        rcases ih (i + 1) i with h | h
        · right
          rw [h]
          rw [hlen]
          constructor
          · exact le_refl i
          · have : (0 : Int) ≤ (xs.length : Int) := Int.natCast_nonneg _
            linarith
        · right
          rw [hlen]
          exact ⟨by linarith [h.1], by linarith [h.2]⟩
      · rw [if_neg hx]
        rcases ih (i + 1) acc with h | h
        · exact Or.inl h
        · right
          rw [hlen]
          exact ⟨by linarith [h.1], by linarith [h.2]⟩

theorem section_scan_mem (s : String) :
    ∀ (l : List String) (i acc : Int), s ∈ l →
      i ≤ section_scan s i l acc ∧ section_scan s i l acc < i + l.length := by
  intro l
  induction l with
  | nil => intro i acc h; exact absurd h (List.not_mem_nil s)
  | cons x xs ih =>
      intro i acc h
      rw [section_scan_step]
      have hlen : ((x :: xs).length : Int) = (xs.length : Int) + 1 := by
        simp [List.length_cons]
      by_cases hx : x = s
      · rw [if_pos hx]
        rcases section_scan_cases s xs (i + 1) i with hc | hc
        · rw [hc, hlen]
          constructor
          · exact le_refl i
          · have : (0 : Int) ≤ (xs.length : Int) := Int.natCast_nonneg _
            linarith
        · rw [hlen]
          exact ⟨by linarith [hc.1], by linarith [hc.2]⟩
      · rw [if_neg hx]
        have hmem : s ∈ xs := by
          rcases List.mem_cons.mp h with h' | h'
          · exact absurd h'.symm hx
          · exact h'
        have hr := ih (i + 1) acc hmem
        rw [hlen]
        exact ⟨by linarith [hr.1], by linarith [hr.2]⟩

/-- C9: on a line sequence that does not contain the heading, the section
locator returns the sentinel `length + 1`, which is strictly greater than
every value a successful lookup can produce (successful lookups always land
in `[1, length]`), so failure is distinguishable from success. -/
theorem get_section_line_absent_sentinel
    (contents : List String) (heading : String) :
    (heading ∉ contents → get_section_line contents heading = (contents.length : Int) + 1) ∧
    (heading ∈ contents →
      1 ≤ get_section_line contents heading ∧
        get_section_line contents heading ≤ (contents.length : Int)) := by
  constructor
  · intro h
    have h' : heading ∉ contents.reverse := by
      intro hm; exact h (List.mem_reverse.mp hm)
    unfold get_section_line
    rw [section_scan_not_mem heading contents.reverse 0 (-1) h']
    ring
  · intro h
    have h' : heading ∈ contents.reverse := List.mem_reverse.mpr h
    have hb := section_scan_mem heading contents.reverse 0 (-1) h'
    unfold get_section_line
    rw [List.length_reverse] at hb
    constructor
    · have := hb.2
      linarith
    · have := hb.1
      linarith

/-- Witness for C9: concrete absent heading gives the sentinel `2 = 1 + 1`
on a 1-line buffer, and a present heading gives a value `≤ length`. -/
theorem get_section_line_absent_sentinel_witness :
    get_section_line ["x"] "H" = 2 ∧ get_section_line ["H"] "H" ≤ 1 := by
  constructor
  · exact (get_section_line_absent_sentinel ["x"] "H").1 (by decide)
  · exact ((get_section_line_absent_sentinel ["H"] "H").2 (by decide)).2

/-- C2: the reverse scan in `get_section_line` lacks a `break`, so the
accumulator keeps being overwritten and the final value corresponds to the
*first* forward occurrence, not the last one.  On `["a","H","b","H"]` the
last forward occurrence of `"H"` is at forward index 3, so the documented
backward-search contract would give `4`; the code returns `2`. -/
theorem get_section_line_duplicate_heading_first_wins :
    get_section_line ["a", "H", "b", "H"] "H" = 2 := by decide

/-! Tag removal (`utils/make_issues.py`, `remove_tag_from_issues`) -/

/-- Entries of the heterogeneous Python `ignore_list`: `upload_issues`
produces plain integers (issue indexes) while `upload_comments` produces
dicts `{"issue": i, "comment": n}`; an int never equals a dict. -/
inductive IgnoreEntry where
  | issueIdx (i : Nat)
  | commentIdx (issue : Nat) (comment : Nat)
deriving DecidableEq, Repr

/-- The body of the `scope in ("all", "issues")` branch once the ignore
check has passed: `issue.metadata.remove(tag)` followed by the conditional
`issue.all_comments[0].tags.remove(tag)`.  Accessing `all_comments[0]` on
an empty list is Python's `IndexError`. -/
def eraseHeadCommentTag (tag : String) (issue : GitHubIssue) : Except PyErr GitHubIssue :=
  match issue.all_comments with
  | [] => .error .indexErr
  | c0 :: rest =>
      let c0' := if tag ∈ c0.tags then { c0 with tags := c0.tags.erase tag } else c0
      .ok { issue with all_comments := c0' :: rest }

/-- The `scope in ("all", "comments")` loop over `issue.all_comments`:
each comment whose tags contain `tag` and whose
`{"issue": index, "comment": comment.number}` dict is not in the ignore
list has the tag removed. -/
def commentsPass (tag : String) (ignore : List IgnoreEntry) (index : Nat)
    (issue : GitHubIssue) : GitHubIssue :=
  { issue with
    all_comments := issue.all_comments.map (fun c =>
      if tag ∈ c.tags ∧ IgnoreEntry.commentIdx index c.number ∉ ignore then
        { c with tags := c.tags.erase tag }
      else c) }

/-- One iteration of the `for index, issue in enumerate(issues)` loop of
`remove_tag_from_issues`.  An ignored issue index hits `continue`, which
skips the comments pass for that issue as well. -/
def processIssue (tag scope : String) (ignore : List IgnoreEntry) (index : Nat)
    (issue : GitHubIssue) : Except PyErr GitHubIssue :=
  if (scope = "all" ∨ scope = "issues") ∧ tag ∈ issue.metadata then
    if IgnoreEntry.issueIdx index ∈ ignore then
      .ok issue
    else
      match eraseHeadCommentTag tag { issue with metadata := issue.metadata.erase tag } with
      | .error e => .error e
      | .ok issue' =>
          .ok (if scope = "all" ∨ scope = "comments" then
                 commentsPass tag ignore index issue'
               else issue')
  else
    .ok (if scope = "all" ∨ scope = "comments" then
           commentsPass tag ignore index issue
         else issue)

/-- The full loop of `remove_tag_from_issues`, carrying the enumeration
index. -/
def remove_tag_go (tag scope : String) (ignore : List IgnoreEntry) :
    Nat → List GitHubIssue → Except PyErr (List GitHubIssue)
  | _, [] => .ok []
  | index, issue :: rest =>
      match processIssue tag scope ignore index issue with
      | .error e => .error e
      | .ok issue' =>
          match remove_tag_go tag scope ignore (index + 1) rest with
          | .error e => .error e
          | .ok rest' => .ok (issue' :: rest')

/-- Function `remove_tag_from_issues(issues, tag, scope, ignore_list)`. -/
def remove_tag_from_issues (issues : List GitHubIssue) (tag scope : String)
    (ignore_list : List IgnoreEntry) : Except PyErr (List GitHubIssue) :=
  remove_tag_go tag scope ignore_list 0 issues

/-- Look up the comment at issue index `i`, comment position `j`. -/
def commentAt (issues : List GitHubIssue) (i j : Nat) : Option GitHubIssueComment :=
  match issues[i]? with
  | none => none
  | some iss => iss.all_comments[j]?

theorem processIssue_issues_scope_shape (tag : String) (ignore : List IgnoreEntry)
    (index : Nat) (issue out : GitHubIssue)
    (h : processIssue tag "issues" ignore index issue = .ok out) :
    out.all_comments.length = issue.all_comments.length ∧
      (∀ j : Nat, out.all_comments[j + 1]? = issue.all_comments[j + 1]?) := by
  unfold processIssue at h
  by_cases hmeta : ("issues" = "all" ∨ "issues" = "issues") ∧ tag ∈ issue.metadata
  · rw [if_pos hmeta] at h
    by_cases hign : IgnoreEntry.issueIdx index ∈ ignore
    · rw [if_pos hign] at h
      cases h
      exact ⟨rfl, fun _ => rfl⟩
    · rw [if_neg hign] at h
      unfold eraseHeadCommentTag at h
      cases hc : issue.all_comments with
      | nil => rw [hc] at h; exact absurd h (by simp)
      | cons c0 rest =>
          rw [hc] at h
          simp only [] at h
          have hscope : ¬ ("issues" = "all" ∨ "issues" = "comments") := by decide
          rw [if_neg hscope] at h
          cases h
          simp [hc]
  · rw [if_neg hmeta] at h
    have hscope : ¬ ("issues" = "all" ∨ "issues" = "comments") := by decide
    rw [if_neg hscope] at h
    cases h
    exact ⟨rfl, fun _ => rfl⟩

theorem processIssue_comments_scope_shape (tag : String) (ignore : List IgnoreEntry)
    (index : Nat) (issue out : GitHubIssue)
    (h : processIssue tag "comments" ignore index issue = .ok out) :
    out.metadata = issue.metadata ∧
      out.all_comments = issue.all_comments.map (fun c =>
        if tag ∈ c.tags ∧ IgnoreEntry.commentIdx index c.number ∉ ignore then
          { c with tags := c.tags.erase tag }
        else c) := by
  unfold processIssue at h
  have hmeta : ¬ (("comments" = "all" ∨ "comments" = "issues") ∧ tag ∈ issue.metadata) := by
    rintro ⟨h1, _⟩
    rcases h1 with h1 | h1 <;> simp at h1
  rw [if_neg hmeta] at h
  have hscope : ("comments" = "all" ∨ "comments" = "comments") := by decide
  rw [if_pos hscope] at h
  cases h
  exact ⟨rfl, rfl⟩

theorem processIssue_issues_scope_ignored (tag : String) (ignore : List IgnoreEntry)
    (index : Nat) (issue : GitHubIssue)
    (hign : IgnoreEntry.issueIdx index ∈ ignore) :
    processIssue tag "issues" ignore index issue = .ok issue := by
  unfold processIssue
  by_cases hmeta : ("issues" = "all" ∨ "issues" = "issues") ∧ tag ∈ issue.metadata
  · rw [if_pos hmeta, if_pos hign]
  · rw [if_neg hmeta]
    have hscope : ¬ ("issues" = "all" ∨ "issues" = "comments") := by decide
    rw [if_neg hscope]

theorem remove_tag_go_issues_tail (tag : String) (ignore : List IgnoreEntry) :
    ∀ (issues : List GitHubIssue) (k : Nat) (out : List GitHubIssue),
      remove_tag_go tag "issues" ignore k issues = .ok out →
      ∀ i j : Nat, (commentAt out i (j + 1)) = commentAt issues i (j + 1) := by
  intro issues
  induction issues with
  | nil =>
      intro k out h i j
      unfold remove_tag_go at h
      cases h
      rfl
  | cons a rest ih =>
      intro k out h i j
      unfold remove_tag_go at h
      cases hp : processIssue tag "issues" ignore k a with
      | error e => rw [hp] at h; exact absurd h (by simp)
      | ok a' =>
          rw [hp] at h
          cases hr : remove_tag_go tag "issues" ignore (k + 1) rest with
          | error e => rw [hr] at h; exact absurd h (by simp)
          | ok rest' =>
              rw [hr] at h
              simp only [] at h
              cases h
              cases i with
              | zero =>
                  simp only [commentAt, List.getElem?_cons_zero]
                  exact (processIssue_issues_scope_shape tag ignore k a a' hp).2 j
              | succ i' =>
                  simp only [commentAt, List.getElem?_cons_succ]
                  exact ih (k + 1) rest' hr i' j

theorem remove_tag_go_comments_metadata (tag : String) (ignore : List IgnoreEntry) :
    ∀ (issues : List GitHubIssue) (k : Nat) (out : List GitHubIssue),
      remove_tag_go tag "comments" ignore k issues = .ok out →
      ∀ i : Nat, (out[i]?).map GitHubIssue.metadata = (issues[i]?).map GitHubIssue.metadata := by
  intro issues
  induction issues with
  | nil =>
      intro k out h i
      unfold remove_tag_go at h
      cases h
      rfl
  | cons a rest ih =>
      intro k out h i
      unfold remove_tag_go at h
      cases hp : processIssue tag "comments" ignore k a with
      | error e => rw [hp] at h; exact absurd h (by simp)
      | ok a' =>
          rw [hp] at h
          cases hr : remove_tag_go tag "comments" ignore (k + 1) rest with
          | error e => rw [hr] at h; exact absurd h (by simp)
          | ok rest' =>
              rw [hr] at h
              simp only [] at h
              cases h
              cases i with
              | zero =>
                  simp only [List.getElem?_cons_zero, Option.map]
                  rw [(processIssue_comments_scope_shape tag ignore k a a' hp).1]
              | succ i' =>
                  simp only [List.getElem?_cons_succ]
                  exact ih (k + 1) rest' hr i'

theorem remove_tag_go_issues_ignored (tag : String) (ignore : List IgnoreEntry) :
    ∀ (issues : List GitHubIssue) (k : Nat) (out : List GitHubIssue),
      remove_tag_go tag "issues" ignore k issues = .ok out →
      ∀ i : Nat, IgnoreEntry.issueIdx (k + i) ∈ ignore → out[i]? = issues[i]? := by
  intro issues
  induction issues with
  | nil =>
      intro k out h i _
      unfold remove_tag_go at h
      cases h
      rfl
  | cons a rest ih =>
      intro k out h i hig
      unfold remove_tag_go at h
      cases hp : processIssue tag "issues" ignore k a with
      | error e => rw [hp] at h; exact absurd h (by simp)
      | ok a' =>
          rw [hp] at h
          cases hr : remove_tag_go tag "issues" ignore (k + 1) rest with
          | error e => rw [hr] at h; exact absurd h (by simp)
          | ok rest' =>
              rw [hr] at h
              simp only [] at h
              cases h
              cases i with
              | zero =>
                  have hk : IgnoreEntry.issueIdx k ∈ ignore := by
                    simpa using hig
                  have := processIssue_issues_scope_ignored tag ignore k a hk
                  rw [hp] at this
                  have ha : a' = a := by
                    injection this
                  simp [ha]
              | succ i' =>
                  have hig' : IgnoreEntry.issueIdx ((k + 1) + i') ∈ ignore := by
                    have : k + (i' + 1) = (k + 1) + i' := by omega
                    rw [this] at hig
                    exact hig
                  simp only [List.getElem?_cons_succ]
                  exact ih (k + 1) rest' hr i' hig'

theorem remove_tag_go_comments_ignored (tag : String) (ignore : List IgnoreEntry) :
    ∀ (issues : List GitHubIssue) (k : Nat) (out : List GitHubIssue),
      remove_tag_go tag "comments" ignore k issues = .ok out →
      ∀ (i j : Nat) (c : GitHubIssueComment),
        commentAt issues i j = some c →
        IgnoreEntry.commentIdx (k + i) c.number ∈ ignore →
        commentAt out i j = some c := by
  intro issues
  induction issues with
  | nil =>
      intro k out h i j c hc _
      unfold remove_tag_go at h
      cases h
      exact hc
  | cons a rest ih =>
      intro k out h i j c hc hig
      unfold remove_tag_go at h
      cases hp : processIssue tag "comments" ignore k a with
      | error e => rw [hp] at h; exact absurd h (by simp)
      | ok a' =>
          rw [hp] at h
          cases hr : remove_tag_go tag "comments" ignore (k + 1) rest with
          | error e => rw [hr] at h; exact absurd h (by simp)
          | ok rest' =>
              rw [hr] at h
              simp only [] at h
              cases h
              cases i with
              | zero =>
                  have hk : IgnoreEntry.commentIdx k c.number ∈ ignore := by
                    simpa using hig
                  have hshape := (processIssue_comments_scope_shape tag ignore k a a' hp).2
                  have hcj : a.all_comments[j]? = some c := by
                    simpa [commentAt] using hc
                  simp only [commentAt, List.getElem?_cons_zero, hshape,
                    List.getElem?_map, hcj, Option.map]
                  rw [if_neg]
                  rintro ⟨_, hnot⟩
                  exact hnot hk
              | succ i' =>
                  have hig' : IgnoreEntry.commentIdx ((k + 1) + i') c.number ∈ ignore := by
                    have : k + (i' + 1) = (k + 1) + i' := by omega
                    rw [this] at hig
                    exact hig
                  have hc' : commentAt rest i' j = some c := by
                    simpa [commentAt] using hc
                  have := ih (k + 1) rest' hr i' j c hc' hig'
                  simpa [commentAt] using this

/-- An issue carrying the marker tag both in its metadata and on its body
comment (comment 0), exactly as the plugin keeps them in sync. -/
def taggedBodyIssue : GitHubIssue :=
  { number := 1
    complete := false
    title := "t"
    all_comments := [{ number := 0, body := ["b"], tags := ["edit"], updated_at := "u" }]
    labels := []
    metadata := ["edit"] }

/-- C1 counterexample: with scope `"issues"`, `remove_tag_from_issues`
*does* mutate a comment's tag set — the docstring itself says the first
comment is the issue body and is stripped together with the metadata.  The
comment at index (0,0) goes from tags `["edit"]` to `[]`. -/
theorem remove_tag_issues_scope_clears_body_comment_tag_cex :
    ((remove_tag_from_issues [taggedBodyIssue] "edit" "issues" []).toOption.map
        (fun l => (commentAt l 0 0).map GitHubIssueComment.tags)) = some (some []) ∧
    (commentAt [taggedBodyIssue] 0 0).map GitHubIssueComment.tags = some ["edit"] := by
  decide

/-- C1 (amended): with scope `"issues"` the tag pass may rewrite only the
first comment (the issue body); every comment at position ≥ 1 is left
untouched.  With scope `"comments"` no issue's metadata is ever mutated. -/
theorem remove_tag_scope_frame :
    (∀ (issues : List GitHubIssue) (tag : String) (ignore : List IgnoreEntry)
        (out : List GitHubIssue) (i j : Nat),
      remove_tag_from_issues issues tag "issues" ignore = .ok out →
      commentAt out i (j + 1) = commentAt issues i (j + 1)) ∧
    (∀ (issues : List GitHubIssue) (tag : String) (ignore : List IgnoreEntry)
        (out : List GitHubIssue) (i : Nat),
      remove_tag_from_issues issues tag "comments" ignore = .ok out →
      (out[i]?).map GitHubIssue.metadata = (issues[i]?).map GitHubIssue.metadata) := by
  constructor
  · intro issues tag ignore out i j h
    exact remove_tag_go_issues_tail tag ignore issues 0 out h i j
  · intro issues tag ignore out i h
    exact remove_tag_go_comments_metadata tag ignore issues 0 out h i

/-- The result of stripping `"edit"` from `taggedBodyIssueTwoComments`
with scope `"issues"`. -/
def taggedBodyIssueTwoComments : GitHubIssue :=
  { number := 1
    complete := false
    title := "t"
    all_comments :=
      [{ number := 0, body := ["b"], tags := ["edit"], updated_at := "u" },
       { number := 1, body := ["c"], tags := ["edit"], updated_at := "v" }]
    labels := []
    metadata := ["edit"] }

def taggedBodyIssueTwoCommentsStripped : GitHubIssue :=
  { number := 1
    complete := false
    title := "t"
    all_comments :=
      [{ number := 0, body := ["b"], tags := [], updated_at := "u" },
       { number := 1, body := ["c"], tags := ["edit"], updated_at := "v" }]
    labels := []
    metadata := [] }

/-- Witness for C1 (amended): on a concrete two-comment issue the call
succeeds and comment 1 is untouched by the `"issues"` scope. -/
theorem remove_tag_scope_frame_witness :
    remove_tag_from_issues [taggedBodyIssueTwoComments] "edit" "issues" [] =
      .ok [taggedBodyIssueTwoCommentsStripped] ∧
    commentAt [taggedBodyIssueTwoCommentsStripped] 0 1 =
      commentAt [taggedBodyIssueTwoComments] 0 1 :=
  ⟨by decide,
   remove_tag_scope_frame.1 [taggedBodyIssueTwoComments] "edit" []
     [taggedBodyIssueTwoCommentsStripped] 0 0 (by decide)⟩

/-- An issue whose single comment sits at list index 0 but carries the
comment *number* 5, as can happen for hand-built lists: the ignore check
of `remove_tag_from_issues` compares against the number, not the index. -/
def offNumberIssue : GitHubIssue :=
  { number := 1
    complete := false
    title := "t"
    all_comments := [{ number := 5, body := ["x"], tags := ["edit"], updated_at := "u" }]
    labels := []
    metadata := [] }

/-- C5 counterexample: the ignore entry `(issue 0, comment 0)` names the
index pair of the only comment, yet the comment still loses its tag,
because the code matches the ignore list against `comment.number` (here 5)
rather than the positional comment index (here 0). -/
theorem remove_tag_ignore_by_number_cex :
    ((remove_tag_from_issues [offNumberIssue] "edit" "comments"
        [IgnoreEntry.commentIdx 0 0]).toOption.map
        (fun l => (commentAt l 0 0).map GitHubIssueComment.tags)) = some (some []) ∧
    (commentAt [offNumberIssue] 0 0).map GitHubIssueComment.tags = some ["edit"] := by
  decide

/-- C5 (amended): an issue index in the ignore list keeps the whole issue
(by `continue`) under scope `"issues"`, and under scope `"comments"` a
comment keeps its tags whenever the pair (issue index, comment *number*)
is in the ignore list — the code keys comment entries by the comment's
`number` field, which coincides with the position for all lists this
plugin builds. -/
theorem remove_tag_ignore_list_respected :
    (∀ (issues : List GitHubIssue) (tag : String) (ignore : List IgnoreEntry)
        (out : List GitHubIssue) (i : Nat),
      remove_tag_from_issues issues tag "issues" ignore = .ok out →
      IgnoreEntry.issueIdx i ∈ ignore → out[i]? = issues[i]?) ∧
    (∀ (issues : List GitHubIssue) (tag : String) (ignore : List IgnoreEntry)
        (out : List GitHubIssue) (i j : Nat) (c : GitHubIssueComment),
      remove_tag_from_issues issues tag "comments" ignore = .ok out →
      commentAt issues i j = some c →
      IgnoreEntry.commentIdx i c.number ∈ ignore →
      commentAt out i j = some c) := by
  constructor
  · intro issues tag ignore out i h hig
    exact remove_tag_go_issues_ignored tag ignore issues 0 out h i (by simpa using hig)
  · intro issues tag ignore out i j c h hc hig
    exact remove_tag_go_comments_ignored tag ignore issues 0 out h i j c hc
      (by simpa using hig)

/-- The well-numbered variant of `offNumberIssue` (comment number 0 at
index 0), for the C5 witness. -/
def wellNumberedIssue : GitHubIssue :=
  { number := 1
    complete := false
    title := "t"
    all_comments := [{ number := 0, body := ["x"], tags := ["edit"], updated_at := "u" }]
    labels := []
    metadata := [] }

/-- Witness for C5 (amended): with matching numbers the ignored comment
keeps its tag. -/
theorem remove_tag_ignore_list_respected_witness :
    remove_tag_from_issues [wellNumberedIssue] "edit" "comments"
      [IgnoreEntry.commentIdx 0 0] = .ok [wellNumberedIssue] ∧
    commentAt [wellNumberedIssue] 0 0 =
      some { number := 0, body := ["x"], tags := ["edit"], updated_at := "u" } :=
  ⟨by decide,
   remove_tag_ignore_list_respected.2 [wellNumberedIssue] "edit"
     [IgnoreEntry.commentIdx 0 0] [wellNumberedIssue] 0 0
     { number := 0, body := ["x"], tags := ["edit"], updated_at := "u" }
     (by decide) (by decide) (by decide)⟩

/-! Tagging/Filter engine (`classes/nvim_github_class.py`) -/

/-- Modelled from the spec: `check_markdown_style(line, target_dialect)`
lives in `helpers/issue_helpers.py`, which is outside the supplied
snapshot.  Per the spec it is a small prefix substitution that swaps the
list/bullet glyph between the two markdown dialects, is idempotent on
lines already in the target dialect, and never touches the rest of the
line. -/
def check_markdown_style (line : String) (dialect : String) : String :=
  match line.data with
  | [] => line
  | c :: rest =>
      if dialect = "github" then
        if c = '*' then String.mk ('-' :: rest) else line
      else
        if c = '-' then String.mk ('*' :: rest) else line

/-- Python's `"\r\n".join(strings)`. -/
def joinCRLF : List String → String
  | [] => ""
  | [s] => s
  | s :: rest => s ++ "\r\n" ++ joinCRLF rest

/-- The composed candidate body used by both filter functions:
`"\r\n".join(check_markdown_style(line, "github") for line in body)`. -/
def joinGithubBody (body : List String) : String :=
  joinCRLF (body.map (fun l => check_markdown_style l "github"))

/-- The dict appended to `comments_to_upload` by `filter_comments`. -/
structure CommentToUpload where
  issue_number : Nat
  comment_number : Nat
  comment : String
deriving DecidableEq, Repr

/-- The dict appended to `change_indexes` by `filter_comments`:
`{"issue": issue_index, "comment": comment_index}`. -/
structure ChangeIndex where
  issue : Nat
  comment : Nat
deriving DecidableEq, Repr

/-- Inner loop of `filter_comments`: scan one issue's comments, carrying
the `enumerate` counter `ci`. -/
def filterCommentsScanComments (tag : String) (issue_number issue_index : Nat) :
    Nat → List GitHubIssueComment → List (CommentToUpload × ChangeIndex)
  | _, [] => []
  | ci, c :: rest =>
      (if tag ∈ c.tags then
         [({ issue_number := issue_number
             comment_number := c.number
             comment := joinGithubBody c.body },
           { issue := issue_index, comment := ci })]
       else [])
        ++ filterCommentsScanComments tag issue_number issue_index (ci + 1) rest

/-- Outer loop of `filter_comments`, carrying the issue `enumerate`
counter. -/
def filterCommentsScan (tag : String) : Nat → List GitHubIssue → List (CommentToUpload × ChangeIndex)
  | _, [] => []
  | ii, issue :: rest =>
      filterCommentsScanComments tag issue.number ii 0 issue.all_comments
        ++ filterCommentsScan tag (ii + 1) rest

/-- Function `filter_comments(issues, tag)` → `(comments_to_upload, change_indexes)`. -/
def filter_comments (issues : List GitHubIssue) (tag : String) :
    List CommentToUpload × List ChangeIndex :=
  ((filterCommentsScan tag 0 issues).map Prod.fst,
   (filterCommentsScan tag 0 issues).map Prod.snd)

/-- The dict appended to `issues_to_upload` by `filter_issues`. -/
structure IssueToUpload where
  number : Nat
  title : String
  labels : List String
  body : String
deriving DecidableEq, Repr

/-- Loop of `filter_issues`; accessing `issue.all_comments[0]` on an issue
with no comments is Python's `IndexError`. -/
def filterIssuesScan (tag : String) :
    Nat → List GitHubIssue → Except PyErr (List (IssueToUpload × Nat))
  | _, [] => .ok []
  | i, issue :: rest =>
      if tag ∈ issue.metadata then
        match issue.all_comments[0]? with
        | none => .error .indexErr
        | some c0 =>
            match filterIssuesScan tag (i + 1) rest with
            | .error e => .error e
            | .ok tail =>
                .ok (({ number := issue.number
                        title := issue.title
                        labels := issue.labels
                        body := joinGithubBody c0.body }, i) :: tail)
      else filterIssuesScan tag (i + 1) rest

/-- Function `filter_issues(issues, tag)` → `(issues_to_upload, change_indexes)`. -/
def filter_issues (issues : List GitHubIssue) (tag : String) :
    Except PyErr (List IssueToUpload × List Nat) :=
  match filterIssuesScan tag 0 issues with
  | .error e => .error e
  | .ok pairs => .ok (pairs.map Prod.fst, pairs.map Prod.snd)

/-- Strict lexicographic order on (issue index, comment index) pairs. -/
def lexLt (a b : ChangeIndex) : Prop :=
  a.issue < b.issue ∨ (a.issue = b.issue ∧ a.comment < b.comment)

/-- Rebuild the upload candidate that the scan of `filter_comments` derives
from the comment sitting at a given index pair. -/
def candidate_at (issues : List GitHubIssue) (ci : ChangeIndex) : Option CommentToUpload :=
  (issues[ci.issue]?).bind (fun iss =>
    (iss.all_comments[ci.comment]?).map (fun c =>
      { issue_number := iss.number
        comment_number := c.number
        comment := joinGithubBody c.body }))

theorem filterCommentsScanComments_bounds (tag : String) (n ii : Nat) :
    ∀ (cs : List GitHubIssueComment) (ci : Nat) (p : CommentToUpload × ChangeIndex),
      p ∈ filterCommentsScanComments tag n ii ci cs →
      p.2.issue = ii ∧ ci ≤ p.2.comment ∧ p.2.comment < ci + cs.length := by
  intro cs
  induction cs with
  | nil => intro ci p h; exact absurd h (List.not_mem_nil p)
  | cons c rest ih =>
      intro ci p h
      unfold filterCommentsScanComments at h
      rcases List.mem_append.mp h with h' | h'
      · by_cases ht : tag ∈ c.tags
        · rw [if_pos ht] at h'
          rcases List.mem_singleton.mp h' with rfl
          refine ⟨rfl, le_refl _, ?_⟩
          simp [List.length_cons]
        · rw [if_neg ht] at h'
          exact absurd h' (List.not_mem_nil p)
      · have := ih (ci + 1) p h'
        refine ⟨this.1, by omega, ?_⟩
        have := this.2.2
        simp only [List.length_cons]
        omega

theorem filterCommentsScanComments_pairwise (tag : String) (n ii : Nat) :
    ∀ (cs : List GitHubIssueComment) (ci : Nat),
      List.Pairwise (fun p q => p.2.comment < q.2.comment)
        (filterCommentsScanComments tag n ii ci cs) := by
  intro cs
  induction cs with
  | nil => intro ci; exact List.Pairwise.nil
  | cons c rest ih =>
      intro ci
      unfold filterCommentsScanComments
      rw [List.pairwise_append]
      refine ⟨?_, ih (ci + 1), ?_⟩
      · by_cases ht : tag ∈ c.tags
        · rw [if_pos ht]; exact List.pairwise_singleton _ _
        · rw [if_neg ht]; exact List.Pairwise.nil
      · intro p hp q hq
        by_cases ht : tag ∈ c.tags
        · rw [if_pos ht] at hp
          rcases List.mem_singleton.mp hp with rfl
          have := (filterCommentsScanComments_bounds tag n ii rest (ci + 1) q hq).2.1
          simp only []
          omega
        · rw [if_neg ht] at hp
          exact absurd hp (List.not_mem_nil p)

theorem filterCommentsScan_bounds (tag : String) :
    ∀ (l : List GitHubIssue) (ii : Nat) (p : CommentToUpload × ChangeIndex),
      p ∈ filterCommentsScan tag ii l →
      ii ≤ p.2.issue ∧ p.2.issue < ii + l.length := by
  intro l
  induction l with
  | nil => intro ii p h; exact absurd h (List.not_mem_nil p)
  | cons a rest ih =>
      intro ii p h
      unfold filterCommentsScan at h
      rcases List.mem_append.mp h with h' | h'
      · have := (filterCommentsScanComments_bounds tag a.number ii a.all_comments 0 p h').1
        constructor
        · omega
        · simp only [List.length_cons]
          omega
      · have := ih (ii + 1) p h'
        constructor
        · omega
        · simp only [List.length_cons]
          omega

theorem filterCommentsScan_pairwise (tag : String) :
    ∀ (l : List GitHubIssue) (ii : Nat),
      List.Pairwise (fun p q => lexLt p.2 q.2) (filterCommentsScan tag ii l) := by
  intro l
  induction l with
  | nil => intro ii; exact List.Pairwise.nil
  | cons a rest ih =>
      intro ii
      unfold filterCommentsScan
      rw [List.pairwise_append]
      refine ⟨?_, ih (ii + 1), ?_⟩
      · have hpw := filterCommentsScanComments_pairwise tag a.number ii a.all_comments 0
        refine List.Pairwise.imp_of_mem ?_ hpw
        intro p q hp hq hlt
        right
        have h1 := (filterCommentsScanComments_bounds tag a.number ii a.all_comments 0 p hp).1
        have h2 := (filterCommentsScanComments_bounds tag a.number ii a.all_comments 0 q hq).1
        exact ⟨by rw [h1, h2], hlt⟩
      · intro p hp q hq
        have h1 := (filterCommentsScanComments_bounds tag a.number ii a.all_comments 0 p hp).1
        have h2 := (filterCommentsScan_bounds tag rest (ii + 1) q hq).1
        left
        omega

theorem filterCommentsScanComments_cand (tag : String) (n ii : Nat) :
    ∀ (cs : List GitHubIssueComment) (ci : Nat) (p : CommentToUpload × ChangeIndex),
      p ∈ filterCommentsScanComments tag n ii ci cs →
      ∃ (k : Nat) (c : GitHubIssueComment),
        p.2.comment = ci + k ∧ cs[k]? = some c ∧
          p.1 = { issue_number := n, comment_number := c.number,
                  comment := joinGithubBody c.body } := by
  intro cs
  induction cs with
  | nil => intro ci p h; exact absurd h (List.not_mem_nil p)
  | cons c rest ih =>
      intro ci p h
      unfold filterCommentsScanComments at h
      rcases List.mem_append.mp h with h' | h'
      · by_cases ht : tag ∈ c.tags
        · rw [if_pos ht] at h'
          rcases List.mem_singleton.mp h' with rfl
          exact ⟨0, c, by simp, by simp, rfl⟩
        · rw [if_neg ht] at h'
          exact absurd h' (List.not_mem_nil p)
      · rcases ih (ci + 1) p h' with ⟨k, c', hk, hc', hp⟩
        refine ⟨k + 1, c', by omega, ?_, hp⟩
        simpa using hc'

theorem filterCommentsScan_cand (tag : String) :
    ∀ (l : List GitHubIssue) (ii : Nat) (p : CommentToUpload × ChangeIndex),
      p ∈ filterCommentsScan tag ii l →
      ∃ (k : Nat) (iss : GitHubIssue) (c : GitHubIssueComment),
        p.2.issue = ii + k ∧ l[k]? = some iss ∧
          iss.all_comments[p.2.comment]? = some c ∧
          p.1 = { issue_number := iss.number, comment_number := c.number,
                  comment := joinGithubBody c.body } := by
  intro l
  induction l with
  | nil => intro ii p h; exact absurd h (List.not_mem_nil p)
  | cons a rest ih =>
      intro ii p h
      unfold filterCommentsScan at h
      rcases List.mem_append.mp h with h' | h'
      · rcases filterCommentsScanComments_cand tag a.number ii a.all_comments 0 p h'
          with ⟨k, c, hk, hc, hp⟩
        have hii := (filterCommentsScanComments_bounds tag a.number ii a.all_comments 0 p h').1
        refine ⟨0, a, c, by omega, by simp, ?_, hp⟩
        have : p.2.comment = k := by omega
        rw [this]
        exact hc
      · rcases ih (ii + 1) p h' with ⟨k, iss, c, hk, hiss, hc, hp⟩
        refine ⟨k + 1, iss, c, by omega, ?_, hc, hp⟩
        simpa using hiss

/-- C7: `filter_comments` returns its index pairs in strictly increasing
(issue index, comment index) lexicographic order, and the candidate list is
aligned with them: the k-th candidate is exactly the one derived from the
comment at the k-th index pair, i.e. the output is in scan order. -/
theorem filter_comments_scan_order (issues : List GitHubIssue) (tag : String) :
    List.Pairwise lexLt (filter_comments issues tag).2 ∧
    ∀ p ∈ List.zip (filter_comments issues tag).1 (filter_comments issues tag).2,
      candidate_at issues p.2 = some p.1 := by
  constructor
  · unfold filter_comments
    rw [List.pairwise_map]
    exact filterCommentsScan_pairwise tag issues 0
  · intro p hp
    unfold filter_comments at hp
    rw [List.zip_map'] at hp
    rcases List.mem_map.mp hp with ⟨q, hq, hpq⟩
    rcases filterCommentsScan_cand tag issues 0 q hq with ⟨k, iss, c, hk, hiss, hc, hq1⟩
    subst hpq
    have hk0 : q.2.issue = k := by omega
    simp only [candidate_at, hk0, hiss, hc, hq1, Option.bind, Option.map]

/-- A concrete issue list for the C7 witness: two issues, a tagged comment
in each. -/
def scanOrderIssues : List GitHubIssue :=
  [{ number := 3
     complete := false
     title := "a"
     all_comments := [{ number := 0, body := ["one"], tags := ["edit"], updated_at := "u" }]
     labels := []
     metadata := [] },
   { number := 9
     complete := false
     title := "b"
     all_comments :=
       [{ number := 0, body := ["two"], tags := [], updated_at := "u" },
        { number := 1, body := ["three"], tags := ["edit"], updated_at := "v" }]
     labels := []
     metadata := [] }]

/-- Witness for C7: on the concrete list the zip is nonempty and the
candidate at the first recorded index pair matches the first candidate. -/
theorem filter_comments_scan_order_witness :
    (({ issue_number := 3, comment_number := 0, comment := "one" },
      ({ issue := 0, comment := 0 } : ChangeIndex)) ∈
        List.zip (filter_comments scanOrderIssues "edit").1
          (filter_comments scanOrderIssues "edit").2) ∧
    candidate_at scanOrderIssues { issue := 0, comment := 0 } =
      some { issue_number := 3, comment_number := 0, comment := "one" } :=
  ⟨by decide,
   (filter_comments_scan_order scanOrderIssues "edit").2
     ({ issue_number := 3, comment_number := 0, comment := "one" },
      { issue := 0, comment := 0 }) (by decide)⟩

/-! Sync orchestrator (`classes/nvim_github_class.py`, `SimpleNvimGithub`) -/

/-- The authenticated GitHub handle (`Github(access_token)`). -/
structure Github where
  token : String
deriving DecidableEq, Repr

/-- Remote calls a method can perform, recorded as a trace. -/
inductive RemoteCall where
  | getLabels (repo : String)
  | listOpenIssues (repo : String)
  | createComment (issue_number : Nat) (body : String)
  | createIssue (title : String) (body : String) (labels : List String)
  | editIssueBody (issue_number : Nat) (body : String)
  | editIssueFull (issue_number : Nat) (title : String) (body : String) (labels : List String)
  | editIssueState (issue_number : Nat) (state : String)
  | editComment (issue_number : Nat) (comment_index : Nat) (body : String)
  | getIssue (issue_number : Nat)
  | getComments (issue_number : Nat)
deriving DecidableEq, Repr

/-- Messages written to the editor (`err_write` / buffered `out_write`). -/
inductive Effect where
  | errWrite (msg : String)
  | outWrite (msg : String)
deriving DecidableEq, Repr

/-- A raw remote comment as the GitHub client returns it. -/
structure RemoteComment where
  body : String
  updated_at : String
deriving DecidableEq, Repr

/-- A raw remote issue as the GitHub client returns it. -/
structure RemoteIssue where
  number : Nat
  title : String
  body : String
  labels : List String
  updated_at : String
  comments : List RemoteComment
deriving DecidableEq, Repr

/-- Pure model of the external world: responses of the GitHub client and
the timezone conversion helper.
`cvt` stands for `convert_utc_timezone` (`helpers/issue_helpers.py`, not in
the snapshot; modelled from the spec as an opaque-to-us reformatting of a
UTC timestamp into the configured timezone, kept as a parameter because no
claim depends on its internals). -/
structure Env where
  cvt : String → String → String
  createCommentUpdatedAt : Nat → String → String
  createIssueNumber : String → String → List String → Nat
  createIssueUpdatedAt : String → String → List String → String
  issueUpdatedAt : Nat → String
  commentUpdatedAt : Nat → Nat → String
  issueState : Nat → String
  repoLabels : String → List String
  openIssues : String → List RemoteIssue

/-- The credential file: missing / unreadable (`IOError`), malformed JSON
(`ValueError`), or parsed into a string-keyed store. -/
inductive CredFile where
  | missing
  | malformed
  | parsed (store : List (String × String))
deriving DecidableEq, Repr

/-- Method `setup_github_api`: `IOError` and `ValueError` are caught and turn
into an error message plus a `None` service, but a parsed store without
the `"access_token"` key raises an uncaught `KeyError`. -/
def setup_github_api (cred : CredFile) : Except PyErr (Option Github × List Effect) :=
  match cred with
  | .missing =>
      .ok (none, [Effect.errWrite "Credentials invalid, try re-generating or checking the path.\n"])
  | .malformed =>
      .ok (none, [Effect.errWrite "Credentials invalid, try re-generating or checking the path.\n"])
  | .parsed store =>
      match store.lookup "access_token" with
      | none => .error .keyErr
      | some tok => .ok (some { token := tok }, [])

/-- Method `service_not_valid`: no service handle, or an empty repo name. -/
def service_not_valid (service : Option Github) (repo_name : String) : Bool :=
  match service with
  | none => true
  | some _ => repo_name = ""

/-- Method `get_repo_issues` (the repo-label fetch): guarded by
`service_not_valid`. -/
def get_repo_issues (env : Env) (service : Option Github) (repo_name : String) :
    List String × List Effect × List RemoteCall :=
  if service_not_valid service repo_name then
    ([], [Effect.errWrite "Github service not currently running...\n"], [])
  else
    (env.repoLabels repo_name, [], [RemoteCall.getLabels repo_name])

/-- Split a character list at CRLF separators. -/
def splitCRLF : List Char → List Char → List String
  | [], acc => [String.mk acc.reverse]
  | '\r' :: '\n' :: rest, acc => String.mk acc.reverse :: splitCRLF rest []
  | c :: rest, acc => splitCRLF rest (c :: acc)

/-- Modelled from the spec: `split_comment` (`helpers/issue_helpers.py`,
not in the snapshot) splits a remote body string into lines; comment
bodies cross the client boundary with CRLF joins. -/
def split_comment (body : String) : List String :=
  splitCRLF body.data []

/-- Method `format_comments`: wrap raw remote comments, numbering from 1. -/
def format_comments (env : Env) (tz : String) :
    Nat → List RemoteComment → List GitHubIssueComment
  | _, [] => []
  | n, rc :: rest =>
      { number := n, body := split_comment rc.body, tags := [],
        updated_at := env.cvt rc.updated_at tz } :: format_comments env tz (n + 1) rest

/-- Method `get_all_open_issues`: guarded by `service_not_valid`; otherwise build
the issue list from the remote response, with the issue body as comment 0. -/
def get_all_open_issues (env : Env) (service : Option Github) (repo_name tz : String) :
    List GitHubIssue × List Effect × List RemoteCall :=
  if service_not_valid service repo_name then
    ([], [Effect.errWrite "Github service not currently running...\n"], [])
  else
    ((env.openIssues repo_name).map (fun ri =>
       { number := ri.number
         complete := false
         title := ri.title
         all_comments :=
           { number := 0, body := split_comment ri.body, tags := [],
             updated_at := env.cvt ri.updated_at tz } :: format_comments env tz 1 ri.comments
         labels := ri.labels
         metadata := [] }),
     [], [RemoteCall.listOpenIssues repo_name])

/-- Replace the element at index `i` (a no-op out of range; the callers
only ever use in-range indexes produced by the filter pass). -/
def modifyAt {α : Type} : List α → Nat → (α → α) → List α
  | [], _, _ => []
  | x :: xs, 0, f => f x :: xs
  | x :: xs, Nat.succ n, f => x :: modifyAt xs n f

/-- Assignment `issues[idx.issue].all_comments[idx.comment].updated_at = t`. -/
def setCommentTime (issues : List GitHubIssue) (idx : ChangeIndex) (t : String) :
    List GitHubIssue :=
  modifyAt issues idx.issue (fun iss =>
    { iss with
      all_comments :=
        modifyAt iss.all_comments idx.comment (fun c => { c with updated_at := t }) })

/-- Loop of `upload_comments`: an empty composed body is routed to the
ignore list and skipped *before* any service access; otherwise the service
is dereferenced (an `AttributeError` if it is `None`) and a
`create_comment` call is made. -/
def uploadCommentsLoop (env : Env) (service : Option Github) (tz : String) :
    List (CommentToUpload × ChangeIndex) → List GitHubIssue → List ChangeIndex → Nat →
      List RemoteCall → Except PyErr (List GitHubIssue × List ChangeIndex × Nat × List RemoteCall)
  | [], issues, ignored, cnt, calls => .ok (issues, ignored, cnt, calls)
  | (c, idx) :: rest, issues, ignored, cnt, calls =>
      if c.comment = "" then
        uploadCommentsLoop env service tz rest issues (ignored ++ [idx]) cnt calls
      else
        match service with
        | none => .error .attrError
        | some _ =>
            uploadCommentsLoop env service tz rest
              (setCommentTime issues idx (env.cvt (env.createCommentUpdatedAt c.issue_number c.comment) tz))
              ignored (cnt + 1) (calls ++ [RemoteCall.createComment c.issue_number c.comment])

/-- Result record of `upload_comments`: the patched issues, the ignore
list that it returns, the buffered user message, and the remote calls. -/
structure UploadCommentsOut where
  issues : List GitHubIssue
  ignored : List ChangeIndex
  effects : List Effect
  calls : List RemoteCall
deriving DecidableEq, Repr

/-- Method `upload_comments(issues, tag)`. -/
def upload_comments (env : Env) (service : Option Github) (_repo tz : String)
    (issues : List GitHubIssue) (tag : String) : Except PyErr UploadCommentsOut :=
  match uploadCommentsLoop env service tz
      (List.zip (filter_comments issues tag).1 (filter_comments issues tag).2) issues [] 0 [] with
  | .error e => .error e
  | .ok (issues', ignored, cnt, calls) =>
      .ok { issues := issues'
            ignored := ignored
            effects := [Effect.outWrite ("Uploaded " ++ toString cnt ++ " comments to GitHub. ")]
            calls := calls }

/-- Assignments `issues[i].number = n; issues[i].all_comments[0].updated_at = t`. -/
def setIssueNumberTime (issues : List GitHubIssue) (i n : Nat) (t : String) :
    List GitHubIssue :=
  modifyAt issues i (fun iss =>
    { iss with
      number := n
      all_comments :=
        modifyAt iss.all_comments 0 (fun c => { c with updated_at := t }) })

/-- Loop of `upload_issues`: an empty title or body is routed to the
ignore list; otherwise `create_issue` is called. -/
def uploadIssuesLoop (env : Env) (service : Option Github) (tz : String) :
    List (IssueToUpload × Nat) → List GitHubIssue → List Nat → Nat → List RemoteCall →
      Except PyErr (List GitHubIssue × List Nat × Nat × List RemoteCall)
  | [], issues, ignored, cnt, calls => .ok (issues, ignored, cnt, calls)
  | (iu, i) :: rest, issues, ignored, cnt, calls =>
      if iu.title = "" ∨ iu.body = "" then
        uploadIssuesLoop env service tz rest issues (ignored ++ [i]) cnt calls
      else
        match service with
        | none => .error .attrError
        | some _ =>
            uploadIssuesLoop env service tz rest
              (setIssueNumberTime issues i (env.createIssueNumber iu.title iu.body iu.labels)
                (env.cvt (env.createIssueUpdatedAt iu.title iu.body iu.labels) tz))
              ignored (cnt + 1) (calls ++ [RemoteCall.createIssue iu.title iu.body iu.labels])

/-- Result record of `upload_issues`. -/
structure UploadIssuesOut where
  issues : List GitHubIssue
  ignored : List Nat
  effects : List Effect
  calls : List RemoteCall
deriving DecidableEq, Repr

/-- Method `upload_issues(issues, tag)`. -/
def upload_issues (env : Env) (service : Option Github) (_repo tz : String)
    (issues : List GitHubIssue) (tag : String) : Except PyErr UploadIssuesOut :=
  match filter_issues issues tag with
  | .error e => .error e
  | .ok (cands, idxs) =>
      match uploadIssuesLoop env service tz (cands.zip idxs) issues [] 0 [] with
      | .error e => .error e
      | .ok (issues', ignored, cnt, calls) =>
          .ok { issues := issues'
                ignored := ignored
                effects := [Effect.outWrite ("Uploaded " ++ toString cnt ++ " issues to GitHub. ")]
                calls := calls }

/-- The remote calls `update_comments` performs for one candidate:
comment number 0 edits the issue body and then re-fetches the issue for
its authoritative timestamp; any other number fetches the numbered reply,
edits it, and re-fetches it. -/
def updateCommentSegment (c : CommentToUpload) : List RemoteCall :=
  if c.comment_number = 0 then
    [RemoteCall.editIssueBody c.issue_number c.comment,
     RemoteCall.getIssue c.issue_number]
  else
    [RemoteCall.getComments c.issue_number,
     RemoteCall.editComment c.issue_number (c.comment_number - 1) c.comment,
     RemoteCall.getComments c.issue_number]

/-- Loop of `update_comments`: every candidate reaches the service with no
emptiness check; the written-back `updated_at` comes from the re-fetched
remote object. -/
def updateCommentsLoop (env : Env) (service : Option Github) (tz : String) :
    List (CommentToUpload × ChangeIndex) → List GitHubIssue → List RemoteCall →
      Except PyErr (List GitHubIssue × List RemoteCall)
  | [], issues, calls => .ok (issues, calls)
  | (c, idx) :: rest, issues, calls =>
      match service with
      | none => .error .attrError
      | some _ =>
          let t := if c.comment_number = 0 then env.issueUpdatedAt c.issue_number
                   else env.commentUpdatedAt c.issue_number (c.comment_number - 1)
          updateCommentsLoop env service tz rest
            (setCommentTime issues idx (env.cvt t tz))
            (calls ++ updateCommentSegment c)

/-- Result record of `update_comments`. -/
structure UpdateCommentsOut where
  issues : List GitHubIssue
  effects : List Effect
  calls : List RemoteCall
deriving DecidableEq, Repr

/-- Method `update_comments(issues, tag)`. -/
def update_comments (env : Env) (service : Option Github) (_repo tz : String)
    (issues : List GitHubIssue) (tag : String) : Except PyErr UpdateCommentsOut :=
  match updateCommentsLoop env service tz
      (List.zip (filter_comments issues tag).1 (filter_comments issues tag).2) issues [] with
  | .error e => .error e
  | .ok (issues', calls) =>
      .ok { issues := issues'
            effects := [Effect.outWrite ("Updated " ++
              toString (filter_comments issues tag).1.length ++ " comments on GitHub. ")]
            calls := calls }

/-- The remote calls `update_issues` performs for one candidate: fetch,
full edit, re-fetch. -/
def updateIssueSegment (iu : IssueToUpload) : List RemoteCall :=
  [RemoteCall.getIssue iu.number,
   RemoteCall.editIssueFull iu.number iu.title iu.body iu.labels,
   RemoteCall.getIssue iu.number]

/-- Loop of `update_issues`: no emptiness check either. -/
def updateIssuesLoop (env : Env) (service : Option Github) (tz : String) :
    List (IssueToUpload × Nat) → List GitHubIssue → List RemoteCall →
      Except PyErr (List GitHubIssue × List RemoteCall)
  | [], issues, calls => .ok (issues, calls)
  | (iu, i) :: rest, issues, calls =>
      match service with
      | none => .error .attrError
      | some _ =>
          updateIssuesLoop env service tz rest
            (modifyAt issues i (fun iss =>
              { iss with
                all_comments :=
                  modifyAt iss.all_comments 0
                    (fun c => { c with updated_at := env.cvt (env.issueUpdatedAt iu.number) tz }) }))
            (calls ++ updateIssueSegment iu)

/-- Result record of `update_issues`. -/
structure UpdateIssuesOut where
  issues : List GitHubIssue
  effects : List Effect
  calls : List RemoteCall
deriving DecidableEq, Repr

/-- Method `update_issues(issues, tag)`. -/
def update_issues (env : Env) (service : Option Github) (_repo tz : String)
    (issues : List GitHubIssue) (tag : String) : Except PyErr UpdateIssuesOut :=
  match filter_issues issues tag with
  | .error e => .error e
  | .ok (cands, idxs) =>
      match updateIssuesLoop env service tz (cands.zip idxs) issues [] with
      | .error e => .error e
      | .ok (issues', calls) =>
          .ok { issues := issues'
                effects := [Effect.outWrite ("Updated " ++ toString cands.length ++ " issues on GitHub. ")]
                calls := calls }

/-- Loop of `complete_issues`: dereferences the service for every issue
(no guard), fetching the remote state and pushing a state edit when the
local `complete` flag disagrees. -/
def completeIssuesLoop (env : Env) (service : Option Github) :
    List GitHubIssue → Nat → List RemoteCall → Except PyErr (Nat × List RemoteCall)
  | [], cnt, calls => .ok (cnt, calls)
  | issue :: rest, cnt, calls =>
      match service with
      | none => .error .attrError
      | some _ =>
          let st := env.issueState issue.number
          if issue.complete ∧ st = "open" then
            completeIssuesLoop env service rest (cnt + 1)
              (calls ++ [RemoteCall.getIssue issue.number,
                         RemoteCall.editIssueState issue.number "closed"])
          else if ¬ issue.complete ∧ st = "closed" then
            completeIssuesLoop env service rest (cnt + 1)
              (calls ++ [RemoteCall.getIssue issue.number,
                         RemoteCall.editIssueState issue.number "open"])
          else
            completeIssuesLoop env service rest cnt
              (calls ++ [RemoteCall.getIssue issue.number])

/-- Method `complete_issues(issues)`. -/
def complete_issues (env : Env) (service : Option Github) (_repo : String)
    (issues : List GitHubIssue) : Except PyErr (List Effect × List RemoteCall) :=
  match completeIssuesLoop env service issues 0 [] with
  | .error e => .error e
  | .ok (cnt, calls) =>
      .ok ([Effect.outWrite ("Changed the completion status of " ++ toString cnt ++
              " issues on GitHub. ")], calls)

theorem zip_proj_eq {A B : Type} (l : List (A × B)) :
    List.zip (l.map Prod.fst) (l.map Prod.snd) = l := by
  simp [List.zip_map']

theorem zip_filter_comments (issues : List GitHubIssue) (tag : String) :
    List.zip (filter_comments issues tag).1 (filter_comments issues tag).2
      = filterCommentsScan tag 0 issues := by
  unfold filter_comments
  exact zip_proj_eq _

theorem filter_issues_ok (issues : List GitHubIssue) (tag : String)
    (cands : List IssueToUpload) (idxs : List Nat)
    (h : filter_issues issues tag = .ok (cands, idxs)) :
    ∃ pairs, filterIssuesScan tag 0 issues = .ok pairs ∧
      cands = pairs.map Prod.fst ∧ idxs = pairs.map Prod.snd := by
  unfold filter_issues at h
  cases hs : filterIssuesScan tag 0 issues with
  | error e => rw [hs] at h; exact absurd h (by simp)
  | ok pairs =>
      rw [hs] at h
      simp only [Except.ok.injEq, Prod.mk.injEq] at h
      exact ⟨pairs, rfl, h.1.symm, h.2.symm⟩

theorem uploadCommentsLoop_spec (env : Env) (g : Github) (tz : String) :
    ∀ (pairs : List (CommentToUpload × ChangeIndex)) (issues : List GitHubIssue)
      (ignored : List ChangeIndex) (cnt : Nat) (calls : List RemoteCall)
      (issues' : List GitHubIssue) (ignored' : List ChangeIndex) (cnt' : Nat)
      (calls' : List RemoteCall),
      uploadCommentsLoop env (some g) tz pairs issues ignored cnt calls
        = .ok (issues', ignored', cnt', calls') →
      (∀ x ∈ ignored, x ∈ ignored') ∧
      (∀ p ∈ pairs, p.1.comment = "" → p.2 ∈ ignored') ∧
      (∀ r ∈ calls', r ∈ calls ∨
        ∃ p ∈ pairs, p.1.comment ≠ "" ∧
          r = RemoteCall.createComment p.1.issue_number p.1.comment) := by
  intro pairs
  induction pairs with
  | nil =>
      intro issues ignored cnt calls issues' ignored' cnt' calls' h
      unfold uploadCommentsLoop at h
      simp only [Except.ok.injEq, Prod.mk.injEq] at h
      refine ⟨?_, ?_, ?_⟩
      · intro x hx; rw [← h.2.1]; exact hx
      · intro p hp; exact absurd hp (List.not_mem_nil p)
      · intro r hr; left; rw [← h.2.2.2] at hr; exact hr
  | cons hd rest ih =>
      obtain ⟨c, idx⟩ := hd
      intro issues ignored cnt calls issues' ignored' cnt' calls' h
      unfold uploadCommentsLoop at h
      by_cases hc : c.comment = ""
      · rw [if_pos hc] at h
        have spec := ih issues (ignored ++ [idx]) cnt calls issues' ignored' cnt' calls' h
        refine ⟨?_, ?_, ?_⟩
        · intro x hx
          exact spec.1 x (List.mem_append_left _ hx)
        · intro p hp _
          rcases List.mem_cons.mp hp with rfl | hp'
          · exact spec.1 idx (List.mem_append_right _ (List.mem_singleton.mpr rfl))
          · exact spec.2.1 p hp' (by assumption)
        · intro r hr
          rcases spec.2.2 r hr with h' | ⟨p, hp, hne, heq⟩
          · exact Or.inl h'
          · exact Or.inr ⟨p, List.mem_cons_of_mem _ hp, hne, heq⟩
      · rw [if_neg hc] at h
        have h' : uploadCommentsLoop env (some g) tz rest
            (setCommentTime issues idx (env.cvt (env.createCommentUpdatedAt c.issue_number c.comment) tz))
            ignored (cnt + 1) (calls ++ [RemoteCall.createComment c.issue_number c.comment])
            = .ok (issues', ignored', cnt', calls') := h
        have spec := ih _ ignored (cnt + 1) _ issues' ignored' cnt' calls' h'
        refine ⟨spec.1, ?_, ?_⟩
        · intro p hp hpe
          rcases List.mem_cons.mp hp with rfl | hp'
          · exact absurd hpe hc
          · exact spec.2.1 p hp' hpe
        · intro r hr
          rcases spec.2.2 r hr with hin | ⟨p, hp, hne, heq⟩
          · rcases List.mem_append.mp hin with hin' | hin'
            · exact Or.inl hin'
            · refine Or.inr ⟨(c, idx), List.mem_cons_self _ _, hc, ?_⟩
              rw [List.mem_singleton.mp hin']
          · exact Or.inr ⟨p, List.mem_cons_of_mem _ hp, hne, heq⟩

theorem uploadIssuesLoop_spec (env : Env) (g : Github) (tz : String) :
    ∀ (pairs : List (IssueToUpload × Nat)) (issues : List GitHubIssue)
      (ignored : List Nat) (cnt : Nat) (calls : List RemoteCall)
      (issues' : List GitHubIssue) (ignored' : List Nat) (cnt' : Nat)
      (calls' : List RemoteCall),
      uploadIssuesLoop env (some g) tz pairs issues ignored cnt calls
        = .ok (issues', ignored', cnt', calls') →
      (∀ x ∈ ignored, x ∈ ignored') ∧
      (∀ p ∈ pairs, p.1.title = "" ∨ p.1.body = "" → p.2 ∈ ignored') ∧
      (∀ r ∈ calls', r ∈ calls ∨
        ∃ p ∈ pairs, ¬(p.1.title = "" ∨ p.1.body = "") ∧
          r = RemoteCall.createIssue p.1.title p.1.body p.1.labels) := by
  intro pairs
  induction pairs with
  | nil =>
      intro issues ignored cnt calls issues' ignored' cnt' calls' h
      unfold uploadIssuesLoop at h
      simp only [Except.ok.injEq, Prod.mk.injEq] at h
      refine ⟨?_, ?_, ?_⟩
      · intro x hx; rw [← h.2.1]; exact hx
      · intro p hp; exact absurd hp (List.not_mem_nil p)
      · intro r hr; left; rw [← h.2.2.2] at hr; exact hr
  | cons hd rest ih =>
      obtain ⟨iu, i⟩ := hd
      intro issues ignored cnt calls issues' ignored' cnt' calls' h
      unfold uploadIssuesLoop at h
      by_cases hc : iu.title = "" ∨ iu.body = ""
      · rw [if_pos hc] at h
        have spec := ih issues (ignored ++ [i]) cnt calls issues' ignored' cnt' calls' h
        refine ⟨?_, ?_, ?_⟩
        · intro x hx
          exact spec.1 x (List.mem_append_left _ hx)
        · intro p hp _
          rcases List.mem_cons.mp hp with rfl | hp'
          · exact spec.1 i (List.mem_append_right _ (List.mem_singleton.mpr rfl))
          · exact spec.2.1 p hp' (by assumption)
        · intro r hr
          rcases spec.2.2 r hr with h' | ⟨p, hp, hne, heq⟩
          · exact Or.inl h'
          · exact Or.inr ⟨p, List.mem_cons_of_mem _ hp, hne, heq⟩
      · rw [if_neg hc] at h
        have h' : uploadIssuesLoop env (some g) tz rest
            (setIssueNumberTime issues i (env.createIssueNumber iu.title iu.body iu.labels)
              (env.cvt (env.createIssueUpdatedAt iu.title iu.body iu.labels) tz))
            ignored (cnt + 1) (calls ++ [RemoteCall.createIssue iu.title iu.body iu.labels])
            = .ok (issues', ignored', cnt', calls') := h
        have spec := ih _ ignored (cnt + 1) _ issues' ignored' cnt' calls' h'
        refine ⟨spec.1, ?_, ?_⟩
        · intro p hp hpe
          rcases List.mem_cons.mp hp with rfl | hp'
          · exact absurd hpe hc
          · exact spec.2.1 p hp' hpe
        · intro r hr
          rcases spec.2.2 r hr with hin | ⟨p, hp, hne, heq⟩
          · rcases List.mem_append.mp hin with hin' | hin'
            · exact Or.inl hin'
            · refine Or.inr ⟨(iu, i), List.mem_cons_self _ _, hc, ?_⟩
              rw [List.mem_singleton.mp hin']
          · exact Or.inr ⟨p, List.mem_cons_of_mem _ hp, hne, heq⟩

/-- C3 (amended): in the two *upload* operations an empty-bodied (or, for
issues, empty-titled) candidate is skipped before any remote call and
recorded in the returned ignore list, and no create call ever carries an
empty body or title.  (The *update* operations have no such check; see the
counterexample.) -/
theorem upload_empty_candidates_skipped :
    (∀ (env : Env) (g : Github) (repo tz : String) (issues : List GitHubIssue)
        (tag : String) (out : UploadCommentsOut),
      upload_comments env (some g) repo tz issues tag = .ok out →
      (∀ p ∈ List.zip (filter_comments issues tag).1 (filter_comments issues tag).2,
        p.1.comment = "" → p.2 ∈ out.ignored) ∧
      (∀ n b, RemoteCall.createComment n b ∈ out.calls → b ≠ "")) ∧
    (∀ (env : Env) (g : Github) (repo tz : String) (issues : List GitHubIssue)
        (tag : String) (out : UploadIssuesOut)
        (cands : List IssueToUpload) (idxs : List Nat),
      filter_issues issues tag = .ok (cands, idxs) →
      upload_issues env (some g) repo tz issues tag = .ok out →
      (∀ p ∈ List.zip cands idxs, p.1.title = "" ∨ p.1.body = "" → p.2 ∈ out.ignored) ∧
      (∀ t b ls, RemoteCall.createIssue t b ls ∈ out.calls → ¬(t = "" ∨ b = ""))) := by
  constructor
  · intro env g repo tz issues tag out h
    unfold upload_comments at h
    cases hl : uploadCommentsLoop env (some g) tz
        (List.zip (filter_comments issues tag).1 (filter_comments issues tag).2) issues [] 0 [] with
    | error e => rw [hl] at h; exact absurd h (by simp)
    | ok r =>
        obtain ⟨issues', ignored', cnt', calls'⟩ := r
        rw [hl] at h
        simp only [Except.ok.injEq] at h
        have spec := uploadCommentsLoop_spec env g tz _ issues [] 0 [] issues' ignored' cnt' calls' hl
        subst h
        refine ⟨?_, ?_⟩
        · intro p hp hpe
          exact spec.2.1 p hp hpe
        · intro n b hb hbe
          rcases spec.2.2 _ hb with hin | ⟨p, _, hne, heq⟩
          · exact absurd hin (List.not_mem_nil _)
          · have : b = p.1.comment := by injection heq
            rw [this] at hbe
            exact hne hbe
  · intro env g repo tz issues tag out cands idxs hf h
    unfold upload_issues at h
    rw [hf] at h
    cases hl : uploadIssuesLoop env (some g) tz (List.zip cands idxs) issues [] 0 [] with
    | error e =>
        simp only [hl] at h
        exact absurd h (by simp)
    | ok r =>
        obtain ⟨issues', ignored', cnt', calls'⟩ := r
        simp only [hl, Except.ok.injEq] at h
        have spec := uploadIssuesLoop_spec env g tz _ issues [] 0 [] issues' ignored' cnt' calls' hl
        subst h
        refine ⟨?_, ?_⟩
        · intro p hp hpe
          exact spec.2.1 p hp hpe
        · intro t b ls hb hbe
          rcases spec.2.2 _ hb with hin | ⟨p, _, hne, heq⟩
          · exact absurd hin (List.not_mem_nil _)
          · have ht : t = p.1.title := by injection heq
            have hbb : b = p.1.body := by
              injection heq with h1 h2 h3
            rw [ht, hbb] at hbe
            exact hne hbe

/-- The concrete response environment used by the witnesses and
counterexamples. -/
def exEnv : Env :=
  { cvt := fun t _ => t
    createCommentUpdatedAt := fun _ _ => "T"
    createIssueNumber := fun _ _ _ => 42
    createIssueUpdatedAt := fun _ _ _ => "T"
    issueUpdatedAt := fun _ => "T"
    commentUpdatedAt := fun _ _ => "T"
    issueState := fun _ => "open"
    repoLabels := fun _ => []
    openIssues := fun _ => [] }

/-- An issue whose body comment is tagged for upload but empty. -/
def emptyBodyIssue : GitHubIssue :=
  { number := 7
    complete := false
    title := "t"
    all_comments := [{ number := 0, body := [], tags := ["edit"], updated_at := "u" }]
    labels := []
    metadata := [] }

/-- C3 counterexample: `update_comments` has no empty-body check — the
filtered candidate composes to the empty string, yet the orchestrator
still issues a remote edit call (here an issue-body edit to `""`). -/
theorem update_comments_edits_empty_body_cex :
    (filter_comments [emptyBodyIssue] "edit").1
      = [{ issue_number := 7, comment_number := 0, comment := "" }] ∧
    (update_comments exEnv (some { token := "tok" }) "r" "tz" [emptyBodyIssue] "edit").map
        UpdateCommentsOut.calls
      = .ok [RemoteCall.editIssueBody 7 "", RemoteCall.getIssue 7] := by
  decide

/-- The result of `upload_comments` on `emptyBodyIssue`. -/
def emptyBodyUploadOut : UploadCommentsOut :=
  { issues := [emptyBodyIssue]
    ignored := [{ issue := 0, comment := 0 }]
    effects := [Effect.outWrite "Uploaded 0 comments to GitHub. "]
    calls := [] }

/-- Witness for C3 (amended): the empty candidate is skipped by
`upload_comments` (no remote call) and lands in the returned ignore list. -/
theorem upload_empty_candidates_skipped_witness :
    upload_comments exEnv (some { token := "tok" }) "r" "tz" [emptyBodyIssue] "edit"
      = .ok emptyBodyUploadOut ∧
    ({ issue := 0, comment := 0 } : ChangeIndex) ∈ emptyBodyUploadOut.ignored :=
  ⟨by decide,
   (upload_empty_candidates_skipped.1 exEnv { token := "tok" } "r" "tz" [emptyBodyIssue]
       "edit" emptyBodyUploadOut (by decide)).1
     ({ issue_number := 7, comment_number := 0, comment := "" },
      { issue := 0, comment := 0 }) (by decide) rfl⟩

/-- Concatenation of per-element call segments. -/
def flatSegs {A B : Type} (f : A → List B) : List A → List B
  | [] => []
  | x :: xs => f x ++ flatSegs f xs

theorem updateCommentsLoop_trace (env : Env) (g : Github) (tz : String) :
    ∀ (pairs : List (CommentToUpload × ChangeIndex)) (issues : List GitHubIssue)
      (calls : List RemoteCall) (issues' : List GitHubIssue) (calls' : List RemoteCall),
      updateCommentsLoop env (some g) tz pairs issues calls = .ok (issues', calls') →
      calls' = calls ++ flatSegs (fun p => updateCommentSegment p.1) pairs := by
  intro pairs
  induction pairs with
  | nil =>
      intro issues calls issues' calls' h
      unfold updateCommentsLoop at h
      simp only [Except.ok.injEq, Prod.mk.injEq] at h
      rw [← h.2]
      simp [flatSegs]
  | cons hd rest ih =>
      obtain ⟨c, idx⟩ := hd
      intro issues calls issues' calls' h
      unfold updateCommentsLoop at h
      have h' : updateCommentsLoop env (some g) tz rest
          (setCommentTime issues idx
            (env.cvt (if c.comment_number = 0 then env.issueUpdatedAt c.issue_number
              else env.commentUpdatedAt c.issue_number (c.comment_number - 1)) tz))
          (calls ++ updateCommentSegment c) = .ok (issues', calls') := h
      have := ih _ _ issues' calls' h'
      rw [this]
      simp [flatSegs, List.append_assoc]

/-- C6: for every filtered candidate of `update_comments` with
`comment_number == 0` the remote calls are exactly an issue-body edit
followed by a single re-fetch of the issue (to read the authoritative
`updated_at`), and never a comment edit; the full trace is the
concatenation of each candidate's segment in order. -/
theorem update_comments_comment_zero_edits_issue :
    ∀ (env : Env) (g : Github) (repo tz : String) (issues : List GitHubIssue)
      (tag : String) (out : UpdateCommentsOut),
      update_comments env (some g) repo tz issues tag = .ok out →
      out.calls = flatSegs (fun p => updateCommentSegment p.1)
          (List.zip (filter_comments issues tag).1 (filter_comments issues tag).2) ∧
      ∀ c ∈ (filter_comments issues tag).1, c.comment_number = 0 →
        updateCommentSegment c
          = [RemoteCall.editIssueBody c.issue_number c.comment,
             RemoteCall.getIssue c.issue_number] ∧
        ∀ m k b, RemoteCall.editComment m k b ∉ updateCommentSegment c := by
  intro env g repo tz issues tag out h
  unfold update_comments at h
  cases hl : updateCommentsLoop env (some g) tz
      (List.zip (filter_comments issues tag).1 (filter_comments issues tag).2) issues [] with
  | error e =>
      rw [hl] at h
      exact absurd h (by simp)
  | ok r =>
      obtain ⟨issues', calls'⟩ := r
      rw [hl] at h
      simp only [Except.ok.injEq] at h
      have htr := updateCommentsLoop_trace env g tz _ issues [] issues' calls' hl
      subst h
      constructor
      · simpa using htr
      · intro c _ h0
        constructor
        · simp [updateCommentSegment, h0]
        · intro m k b hmem
          rw [updateCommentSegment, if_pos h0] at hmem
          simp at hmem

/-- An issue whose body comment is tagged for update with real content. -/
def helloIssue : GitHubIssue :=
  { number := 7
    complete := false
    title := "t"
    all_comments := [{ number := 0, body := ["hello"], tags := ["edit"], updated_at := "u" }]
    labels := []
    metadata := [] }

/-- The result of `update_comments` on `helloIssue` under `exEnv`. -/
def helloUpdateOut : UpdateCommentsOut :=
  { issues :=
      [{ number := 7
         complete := false
         title := "t"
         all_comments := [{ number := 0, body := ["hello"], tags := ["edit"], updated_at := "T" }]
         labels := []
         metadata := [] }]
    effects := [Effect.outWrite "Updated 1 comments on GitHub. "]
    calls := [RemoteCall.editIssueBody 7 "hello", RemoteCall.getIssue 7] }

/-- Witness for C6: on a concrete comment-zero candidate the call segment
is the issue edit followed by the issue re-fetch. -/
theorem update_comments_comment_zero_edits_issue_witness :
    update_comments exEnv (some { token := "tok" }) "r" "tz" [helloIssue] "edit"
      = .ok helloUpdateOut ∧
    updateCommentSegment { issue_number := 7, comment_number := 0, comment := "hello" }
      = [RemoteCall.editIssueBody 7 "hello", RemoteCall.getIssue 7] :=
  ⟨by decide,
   ((update_comments_comment_zero_edits_issue exEnv { token := "tok" } "r" "tz" [helloIssue]
       "edit" helloUpdateOut (by decide)).2
     { issue_number := 7, comment_number := 0, comment := "hello" } (by decide) rfl).1⟩

theorem uploadCommentsLoop_none_err (env : Env) (tz : String) :
    ∀ (pairs : List (CommentToUpload × ChangeIndex)) (issues : List GitHubIssue)
      (ignored : List ChangeIndex) (cnt : Nat) (calls : List RemoteCall),
      (∃ p ∈ pairs, p.1.comment ≠ "") →
      uploadCommentsLoop env none tz pairs issues ignored cnt calls = .error .attrError := by
  intro pairs
  induction pairs with
  | nil =>
      intro issues ignored cnt calls h
      rcases h with ⟨p, hp, _⟩
      exact absurd hp (List.not_mem_nil p)
  | cons hd rest ih =>
      obtain ⟨c, idx⟩ := hd
      intro issues ignored cnt calls h
      unfold uploadCommentsLoop
      by_cases hc : c.comment = ""
      · rw [if_pos hc]
        apply ih
        rcases h with ⟨p, hp, hpe⟩
        rcases List.mem_cons.mp hp with rfl | hp'
        · exact absurd hc hpe
        · exact ⟨p, hp', hpe⟩
      · rw [if_neg hc]

theorem uploadIssuesLoop_none_err (env : Env) (tz : String) :
    ∀ (pairs : List (IssueToUpload × Nat)) (issues : List GitHubIssue)
      (ignored : List Nat) (cnt : Nat) (calls : List RemoteCall),
      (∃ p ∈ pairs, ¬(p.1.title = "" ∨ p.1.body = "")) →
      uploadIssuesLoop env none tz pairs issues ignored cnt calls = .error .attrError := by
  intro pairs
  induction pairs with
  | nil =>
      intro issues ignored cnt calls h
      rcases h with ⟨p, hp, _⟩
      exact absurd hp (List.not_mem_nil p)
  | cons hd rest ih =>
      obtain ⟨iu, i⟩ := hd
      intro issues ignored cnt calls h
      unfold uploadIssuesLoop
      by_cases hc : iu.title = "" ∨ iu.body = ""
      · rw [if_pos hc]
        apply ih
        rcases h with ⟨p, hp, hpe⟩
        rcases List.mem_cons.mp hp with rfl | hp'
        · exact absurd hc hpe
        · exact ⟨p, hp', hpe⟩
      · rw [if_neg hc]

theorem updateCommentsLoop_none_err (env : Env) (tz : String)
    (pairs : List (CommentToUpload × ChangeIndex)) (issues : List GitHubIssue)
    (calls : List RemoteCall) (hne : pairs ≠ []) :
    updateCommentsLoop env none tz pairs issues calls = .error .attrError := by
  cases pairs with
  | nil => exact absurd rfl hne
  | cons hd rest => obtain ⟨c, idx⟩ := hd; rfl

theorem updateIssuesLoop_none_err (env : Env) (tz : String)
    (pairs : List (IssueToUpload × Nat)) (issues : List GitHubIssue)
    (calls : List RemoteCall) (hne : pairs ≠ []) :
    updateIssuesLoop env none tz pairs issues calls = .error .attrError := by
  cases pairs with
  | nil => exact absurd rfl hne
  | cons hd rest => obtain ⟨iu, i⟩ := hd; rfl

theorem completeIssuesLoop_none_err (env : Env)
    (issues : List GitHubIssue) (cnt : Nat) (calls : List RemoteCall)
    (hne : issues ≠ []) :
    completeIssuesLoop env none issues cnt calls = .error .attrError := by
  cases issues with
  | nil => exact absurd rfl hne
  | cons hd rest => rfl

theorem uploadCommentsLoop_some_total (env : Env) (g : Github) (tz : String) :
    ∀ (pairs : List (CommentToUpload × ChangeIndex)) (issues : List GitHubIssue)
      (ignored : List ChangeIndex) (cnt : Nat) (calls : List RemoteCall),
      ∃ r, uploadCommentsLoop env (some g) tz pairs issues ignored cnt calls = .ok r := by
  intro pairs
  induction pairs with
  | nil =>
      intro issues ignored cnt calls
      exact ⟨(issues, ignored, cnt, calls), rfl⟩
  | cons hd rest ih =>
      obtain ⟨c, idx⟩ := hd
      intro issues ignored cnt calls
      unfold uploadCommentsLoop
      by_cases hc : c.comment = ""
      · rw [if_pos hc]
        exact ih issues (ignored ++ [idx]) cnt calls
      · rw [if_neg hc]
        exact ih
          (setCommentTime issues idx (env.cvt (env.createCommentUpdatedAt c.issue_number c.comment) tz))
          ignored (cnt + 1) (calls ++ [RemoteCall.createComment c.issue_number c.comment])

theorem uploadIssuesLoop_some_total (env : Env) (g : Github) (tz : String) :
    ∀ (pairs : List (IssueToUpload × Nat)) (issues : List GitHubIssue)
      (ignored : List Nat) (cnt : Nat) (calls : List RemoteCall),
      ∃ r, uploadIssuesLoop env (some g) tz pairs issues ignored cnt calls = .ok r := by
  intro pairs
  induction pairs with
  | nil =>
      intro issues ignored cnt calls
      exact ⟨(issues, ignored, cnt, calls), rfl⟩
  | cons hd rest ih =>
      obtain ⟨iu, i⟩ := hd
      intro issues ignored cnt calls
      unfold uploadIssuesLoop
      by_cases hc : iu.title = "" ∨ iu.body = ""
      · rw [if_pos hc]
        exact ih issues (ignored ++ [i]) cnt calls
      · rw [if_neg hc]
        exact ih
          (setIssueNumberTime issues i (env.createIssueNumber iu.title iu.body iu.labels)
            (env.cvt (env.createIssueUpdatedAt iu.title iu.body iu.labels) tz))
          ignored (cnt + 1) (calls ++ [RemoteCall.createIssue iu.title iu.body iu.labels])

theorem updateCommentsLoop_some_total (env : Env) (g : Github) (tz : String) :
    ∀ (pairs : List (CommentToUpload × ChangeIndex)) (issues : List GitHubIssue)
      (calls : List RemoteCall),
      ∃ r, updateCommentsLoop env (some g) tz pairs issues calls = .ok r := by
  intro pairs
  induction pairs with
  | nil =>
      intro issues calls
      exact ⟨(issues, calls), rfl⟩
  | cons hd rest ih =>
      obtain ⟨c, idx⟩ := hd
      intro issues calls
      exact ih
        (setCommentTime issues idx
          (env.cvt (if c.comment_number = 0 then env.issueUpdatedAt c.issue_number
            else env.commentUpdatedAt c.issue_number (c.comment_number - 1)) tz))
        (calls ++ updateCommentSegment c)

theorem updateIssuesLoop_some_total (env : Env) (g : Github) (tz : String) :
    ∀ (pairs : List (IssueToUpload × Nat)) (issues : List GitHubIssue)
      (calls : List RemoteCall),
      ∃ r, updateIssuesLoop env (some g) tz pairs issues calls = .ok r := by
  intro pairs
  induction pairs with
  | nil =>
      intro issues calls
      exact ⟨(issues, calls), rfl⟩
  | cons hd rest ih =>
      obtain ⟨iu, i⟩ := hd
      intro issues calls
      exact ih
        (modifyAt issues i (fun iss =>
          { iss with
            all_comments :=
              modifyAt iss.all_comments 0
                (fun c => { c with updated_at := env.cvt (env.issueUpdatedAt iu.number) tz }) }))
        (calls ++ updateIssueSegment iu)

theorem completeIssuesLoop_some_total (env : Env) (g : Github) :
    ∀ (issues : List GitHubIssue) (cnt : Nat) (calls : List RemoteCall),
      ∃ r, completeIssuesLoop env (some g) issues cnt calls = .ok r := by
  intro issues
  induction issues with
  | nil =>
      intro cnt calls
      exact ⟨(cnt, calls), rfl⟩
  | cons issue rest ih =>
      intro cnt calls
      show ∃ r, (if issue.complete = true ∧ env.issueState issue.number = "open" then
            completeIssuesLoop env (some g) rest (cnt + 1)
              (calls ++ [RemoteCall.getIssue issue.number,
                         RemoteCall.editIssueState issue.number "closed"])
          else if ¬issue.complete = true ∧ env.issueState issue.number = "closed" then
            completeIssuesLoop env (some g) rest (cnt + 1)
              (calls ++ [RemoteCall.getIssue issue.number,
                         RemoteCall.editIssueState issue.number "open"])
          else completeIssuesLoop env (some g) rest cnt
              (calls ++ [RemoteCall.getIssue issue.number])) = .ok r
      by_cases h1 : issue.complete = true ∧ env.issueState issue.number = "open"
      · rw [if_pos h1]
        exact ih _ _
      · rw [if_neg h1]
        by_cases h2 : ¬issue.complete = true ∧ env.issueState issue.number = "closed"
        · rw [if_pos h2]
          exact ih _ _
        · rw [if_neg h2]
          exact ih _ _

/-- C4 (amended): a missing or malformed credential file yields a `None`
service with one error message, and a `None` service or an empty repo
name makes `service_not_valid` true (integration inactive).  The two
*read* operations (label fetch, open-issue fetch) are guarded no-ops that
write one error message whenever inactive.  The mutating operations never
consult the validity check: with a `None` service each raises Python's
`AttributeError` as soon as a candidate must reach the service (finishing
quietly only when there is nothing to send), while with a live service
and an empty repo name they run exactly as with any other repo name —
the remote calls are attempted and they complete without any error
message, so they are guarded no-ops in neither flavor of inactive. -/
theorem github_service_invalid_behaviour :
    (setup_github_api .missing
        = .ok (none, [Effect.errWrite "Credentials invalid, try re-generating or checking the path.\n"]) ∧
     setup_github_api .malformed
        = .ok (none, [Effect.errWrite "Credentials invalid, try re-generating or checking the path.\n"])) ∧
    (∀ repo, service_not_valid none repo = true) ∧
    (∀ g, service_not_valid (some g) "" = true) ∧
    (∀ (env : Env) (service : Option Github) (repo : String),
      service_not_valid service repo = true →
      get_repo_issues env service repo
          = ([], [Effect.errWrite "Github service not currently running...\n"], []) ∧
      ∀ tz, get_all_open_issues env service repo tz
          = ([], [Effect.errWrite "Github service not currently running...\n"], [])) ∧
    (∀ (env : Env) (repo tz : String) (issues : List GitHubIssue) (tag : String),
      (∃ c ∈ (filter_comments issues tag).1, c.comment ≠ "") →
      upload_comments env none repo tz issues tag = .error .attrError) ∧
    (∀ (env : Env) (repo tz : String) (issues : List GitHubIssue) (tag : String)
        (cands : List IssueToUpload) (idxs : List Nat),
      filter_issues issues tag = .ok (cands, idxs) →
      (∃ iu ∈ cands, ¬(iu.title = "" ∨ iu.body = "")) →
      upload_issues env none repo tz issues tag = .error .attrError) ∧
    (∀ (env : Env) (repo tz : String) (issues : List GitHubIssue) (tag : String),
      (filter_comments issues tag).1 ≠ [] →
      update_comments env none repo tz issues tag = .error .attrError) ∧
    (∀ (env : Env) (repo tz : String) (issues : List GitHubIssue) (tag : String)
        (cands : List IssueToUpload) (idxs : List Nat),
      filter_issues issues tag = .ok (cands, idxs) → cands ≠ [] →
      update_issues env none repo tz issues tag = .error .attrError) ∧
    (∀ (env : Env) (repo : String) (issues : List GitHubIssue), issues ≠ [] →
      complete_issues env none repo issues = .error .attrError) ∧
    (∀ (env : Env) (g : Github) (repo tz : String) (issues : List GitHubIssue)
        (tag : String),
      upload_comments env (some g) "" tz issues tag
          = upload_comments env (some g) repo tz issues tag ∧
      upload_issues env (some g) "" tz issues tag
          = upload_issues env (some g) repo tz issues tag ∧
      update_comments env (some g) "" tz issues tag
          = update_comments env (some g) repo tz issues tag ∧
      update_issues env (some g) "" tz issues tag
          = update_issues env (some g) repo tz issues tag ∧
      complete_issues env (some g) "" issues
          = complete_issues env (some g) repo issues) ∧
    (∀ (env : Env) (g : Github) (tz : String) (issues : List GitHubIssue) (tag : String),
      ∃ out, upload_comments env (some g) "" tz issues tag = .ok out ∧
        ∀ m, Effect.errWrite m ∉ out.effects) ∧
    (∀ (env : Env) (g : Github) (tz : String) (issues : List GitHubIssue) (tag : String),
      ∃ out, update_comments env (some g) "" tz issues tag = .ok out ∧
        ∀ m, Effect.errWrite m ∉ out.effects) ∧
    (∀ (env : Env) (g : Github) (tz : String) (issues : List GitHubIssue) (tag : String)
        (cands : List IssueToUpload) (idxs : List Nat),
      filter_issues issues tag = .ok (cands, idxs) →
      ∃ out, upload_issues env (some g) "" tz issues tag = .ok out ∧
        ∀ m, Effect.errWrite m ∉ out.effects) ∧
    (∀ (env : Env) (g : Github) (tz : String) (issues : List GitHubIssue) (tag : String)
        (cands : List IssueToUpload) (idxs : List Nat),
      filter_issues issues tag = .ok (cands, idxs) →
      ∃ out, update_issues env (some g) "" tz issues tag = .ok out ∧
        ∀ m, Effect.errWrite m ∉ out.effects) ∧
    (∀ (env : Env) (g : Github) (issues : List GitHubIssue),
      ∃ out, complete_issues env (some g) "" issues = .ok out ∧
        ∀ m, Effect.errWrite m ∉ out.1) := by
  refine ⟨⟨rfl, rfl⟩, fun _ => rfl, fun _ => rfl, ?_, ?_, ?_, ?_, ?_, ?_,
    fun _ _ _ _ _ _ => ⟨rfl, rfl, rfl, rfl, rfl⟩, ?_, ?_, ?_, ?_, ?_⟩
  · intro env service repo h
    constructor
    · unfold get_repo_issues
      rw [if_pos (by simpa using h)]
    · intro tz
      unfold get_all_open_issues
      rw [if_pos (by simpa using h)]
  · intro env repo tz issues tag h
    unfold upload_comments
    have hzip := zip_filter_comments issues tag
    have hex : ∃ p ∈ List.zip (filter_comments issues tag).1 (filter_comments issues tag).2,
        p.1.comment ≠ "" := by
      rcases h with ⟨c, hc, hne⟩
      rcases List.mem_map.mp hc with ⟨p, hp, hpc⟩
      refine ⟨p, ?_, by rw [hpc]; exact hne⟩
      rw [hzip]
      exact hp
    rw [uploadCommentsLoop_none_err env tz _ issues [] 0 [] hex]
  · intro env repo tz issues tag cands idxs hf hex
    unfold upload_issues
    rw [hf]
    rcases filter_issues_ok issues tag cands idxs hf with ⟨pairs, hs, hcands, hidxs⟩
    have hzip : List.zip cands idxs = pairs := by
      rw [hcands, hidxs]; exact zip_proj_eq pairs
    have hex' : ∃ p ∈ List.zip cands idxs, ¬(p.1.title = "" ∨ p.1.body = "") := by
      rcases hex with ⟨iu, hiu, hne⟩
      rw [hcands] at hiu
      rcases List.mem_map.mp hiu with ⟨p, hp, hpc⟩
      refine ⟨p, ?_, by rw [hpc]; exact hne⟩
      rw [hzip]
      exact hp
    have hl := uploadIssuesLoop_none_err env tz (List.zip cands idxs) issues [] 0 [] hex'
    simp only [hl]
  · intro env repo tz issues tag h
    unfold update_comments
    have hne : List.zip (filter_comments issues tag).1 (filter_comments issues tag).2 ≠ [] := by
      intro hz
      apply h
      have := congrArg (List.map Prod.fst) hz
      rw [zip_filter_comments issues tag] at hz
      unfold filter_comments
      rw [hz]
      rfl
    rw [updateCommentsLoop_none_err env tz _ issues [] hne]
  · intro env repo tz issues tag cands idxs hf hne
    unfold update_issues
    rw [hf]
    rcases filter_issues_ok issues tag cands idxs hf with ⟨pairs, hs, hcands, hidxs⟩
    have hzip : List.zip cands idxs = pairs := by
      rw [hcands, hidxs]; exact zip_proj_eq pairs
    have hne' : List.zip cands idxs ≠ [] := by
      rw [hzip]
      intro hz
      apply hne
      rw [hcands, hz]
      rfl
    have hl := updateIssuesLoop_none_err env tz (List.zip cands idxs) issues [] hne'
    simp only [hl]
  · intro env repo issues hne
    unfold complete_issues
    rw [completeIssuesLoop_none_err env issues 0 [] hne]
  · intro env g tz issues tag
    rcases uploadCommentsLoop_some_total env g tz
        (List.zip (filter_comments issues tag).1 (filter_comments issues tag).2)
        issues [] 0 [] with ⟨r, hl⟩
    obtain ⟨issues', ignored', cnt', calls'⟩ := r
    refine ⟨{ issues := issues', ignored := ignored',
              effects := [Effect.outWrite ("Uploaded " ++ toString cnt' ++ " comments to GitHub. ")],
              calls := calls' }, ?_, ?_⟩
    · unfold upload_comments
      rw [hl]
    · intro m hm
      simp at hm
  · intro env g tz issues tag
    rcases updateCommentsLoop_some_total env g tz
        (List.zip (filter_comments issues tag).1 (filter_comments issues tag).2)
        issues [] with ⟨r, hl⟩
    obtain ⟨issues', calls'⟩ := r
    refine ⟨{ issues := issues',
              effects := [Effect.outWrite ("Updated " ++
                toString (filter_comments issues tag).1.length ++ " comments on GitHub. ")],
              calls := calls' }, ?_, ?_⟩
    · unfold update_comments
      rw [hl]
    · intro m hm
      simp at hm
  · intro env g tz issues tag cands idxs hf
    rcases uploadIssuesLoop_some_total env g tz (List.zip cands idxs) issues [] 0 []
      with ⟨r, hl⟩
    obtain ⟨issues', ignored', cnt', calls'⟩ := r
    refine ⟨{ issues := issues', ignored := ignored',
              effects := [Effect.outWrite ("Uploaded " ++ toString cnt' ++ " issues to GitHub. ")],
              calls := calls' }, ?_, ?_⟩
    · unfold upload_issues
      rw [hf]
      simp only [hl]
    · intro m hm
      simp at hm
  · intro env g tz issues tag cands idxs hf
    rcases updateIssuesLoop_some_total env g tz (List.zip cands idxs) issues []
      with ⟨r, hl⟩
    obtain ⟨issues', calls'⟩ := r
    refine ⟨{ issues := issues',
              effects := [Effect.outWrite ("Updated " ++ toString cands.length ++ " issues on GitHub. ")],
              calls := calls' }, ?_, ?_⟩
    · unfold update_issues
      rw [hf]
      simp only [hl]
    · intro m hm
      simp at hm
  · intro env g issues
    rcases completeIssuesLoop_some_total env g issues 0 [] with ⟨r, hl⟩
    obtain ⟨cnt, calls⟩ := r
    refine ⟨([Effect.outWrite ("Changed the completion status of " ++ toString cnt ++
        " issues on GitHub. ")], calls), ?_, ?_⟩
    · unfold complete_issues
      rw [hl]
    · intro m hm
      simp at hm

/-- C4 counterexample: with the integration inactive (service `None`, as
after a failed credential load), `upload_comments` is *not* a guarded
no-op — it raises Python's `AttributeError` on the first non-empty
candidate instead of writing an error message. -/
theorem upload_comments_inactive_crashes_cex :
    service_not_valid none "r" = true ∧
    upload_comments exEnv none "r" "tz" [helloIssue] "edit" = .error .attrError := by
  decide

/-- Witness for C4 (amended): the guarded read is a no-op with one error
message, and a mutating call on a nonempty list crashes while inactive. -/
theorem github_service_invalid_behaviour_witness :
    get_repo_issues exEnv none "r"
      = ([], [Effect.errWrite "Github service not currently running...\n"], []) ∧
    complete_issues exEnv none "r" [helloIssue] = .error .attrError :=
  ⟨(github_service_invalid_behaviour.2.2.2.1 exEnv none "r" (by decide)).1,
   github_service_invalid_behaviour.2.2.2.2.2.2.2.2.1 exEnv "r" [helloIssue] (by decide)⟩

/-! Calendar merge (`nvim_notes/utils/parse_markdown.py`, `combine_events`)
and event filtering (`helpers/google_calendar_helpers.py`). -/

/-- Structure `CalendarEvent` (`classes/calendar_event_class.py`): name plus start
and end timestamp strings.  (`end` is a Lean keyword, hence `end_`.) -/
structure CalendarEvent where
  name : String
  start : String
  end_ : String
deriving DecidableEq, Repr

/-- A timestamp format: `render f s` models
`parser.parse(s).strftime(f)` — parse a timestamp string and re-render it
in this format.  Kept abstract because the date library is outside the
snapshot; the claims quantify over it. -/
structure TimeFmt where
  render : String → String

/-- Modelled from the spec: `format_event` (`helpers/event_helpers.py`,
not in the snapshot) re-renders an event's start/end timestamps in the
given format, leaving the name unchanged. -/
def format_event (e : CalendarEvent) (fmt : TimeFmt) : CalendarEvent :=
  { name := e.name, start := fmt.render e.start, end_ := fmt.render e.end_ }

/-- Function `convert_events(events, format_string)`
(`helpers/google_calendar_helpers.py`): rebuild each event with both
timestamps re-rendered. -/
def convert_events (events : List CalendarEvent) (fmt : TimeFmt) : List CalendarEvent :=
  events.map (fun e =>
    { name := e.name, start := fmt.render e.start, end_ := fmt.render e.end_ })

/-- The `combined_events.extend(event for event in calendar_events if
event not in buffer_events)` step: `combined_events` *is* `buffer_events`
(plain assignment, no copy), and `extend` consumes the lazy generator one
event at a time, appending each kept event before the next membership test
runs — so every test sees the buffer events *plus* the remotes already
appended, and duplicate remote events are deduplicated too. -/
def combineLoop : List CalendarEvent → List CalendarEvent → List CalendarEvent
  | [], buffer => buffer
  | e :: rest, buffer =>
      if e ∈ buffer then combineLoop rest buffer
      else combineLoop rest (buffer ++ [e])

/-- Function `combine_events(nvim, markdown_events, google_events)`: normalize the
buffer events and the (converted) calendar events to `ISO_FORMAT`, keep
the buffer events, extend the aliased list with the calendar events not
structurally present in it so far (see `combineLoop`), and re-render
everything in `TIME_FORMAT`. -/
def combine_events (iso disp : TimeFmt)
    (markdown_events google_events : List CalendarEvent) : List CalendarEvent :=
  (combineLoop
    ((convert_events google_events iso).map (fun e => format_event e iso))
    (markdown_events.map (fun e => format_event e iso))).map
    (fun e => format_event e disp)

/-- A concrete normalizer for the dedup scenario: both `"10:00"` and
`"10:00:00"` render as `"10:00"` (likewise for 11:00). -/
def hhmmFmt : TimeFmt :=
  { render := fun s =>
      if s = "10:00:00" then "10:00" else if s = "11:00:00" then "11:00" else s }

theorem combineLoop_spec :
    ∀ (es buffer : List CalendarEvent),
      ∃ suffix, combineLoop es buffer = buffer ++ suffix ∧
        ∀ x ∈ suffix, x ∈ es ∧ x ∉ buffer := by
  intro es
  induction es with
  | nil =>
      intro buffer
      refine ⟨[], by simp [combineLoop], ?_⟩
      intro x hx
      exact absurd hx (List.not_mem_nil x)
  | cons e rest ih =>
      intro buffer
      by_cases he : e ∈ buffer
      · rcases ih buffer with ⟨suffix, heq, hmem⟩
        refine ⟨suffix, ?_, ?_⟩
        · unfold combineLoop
          rw [if_pos he]
          exact heq
        · intro x hx
          exact ⟨List.mem_cons_of_mem _ (hmem x hx).1, (hmem x hx).2⟩
      · rcases ih (buffer ++ [e]) with ⟨suffix, heq, hmem⟩
        refine ⟨e :: suffix, ?_, ?_⟩
        · unfold combineLoop
          rw [if_neg he, heq, List.append_assoc]
          rfl
        · intro x hx
          rcases List.mem_cons.mp hx with rfl | hx'
          · exact ⟨List.mem_cons_self _ _, he⟩
          · refine ⟨List.mem_cons_of_mem _ (hmem x hx').1, ?_⟩
            intro hb
            exact (hmem x hx').2 (List.mem_append_left _ hb)

/-- C8: `combine_events` keeps every local event (they form the prefix of
the output, re-rendered); every appended element is a (displayed)
normalized remote event that is structurally equal to no normalized local
event — so a remote is appended *only if* no local matches it (the
aliased extend may drop further remotes that duplicate earlier appended
ones); and on the concrete local `{A, 10:00, 11:00}` plus a structurally
identical remote `{A, 10:00:00, 11:00:00}` the result is exactly one
event `A`. -/
theorem combine_events_local_ground_truth :
    (∀ (iso disp : TimeFmt) (locals remotes : List CalendarEvent),
      (combine_events iso disp locals remotes).take locals.length
        = locals.map (fun e => format_event (format_event e iso) disp) ∧
      ∀ x ∈ (combine_events iso disp locals remotes).drop locals.length,
        x ∈ (((convert_events remotes iso).map (fun e => format_event e iso)).filter
              (fun e => decide (e ∉ locals.map (fun l => format_event l iso)))).map
            (fun e => format_event e disp)) ∧
    combine_events hhmmFmt hhmmFmt
        [{ name := "A", start := "10:00", end_ := "11:00" }]
        [{ name := "A", start := "10:00:00", end_ := "11:00:00" }]
      = [{ name := "A", start := "10:00", end_ := "11:00" }] := by
  constructor
  · intro iso disp locals remotes
    rcases combineLoop_spec
        ((convert_events remotes iso).map (fun e => format_event e iso))
        (locals.map (fun e => format_event e iso)) with ⟨suffix, heq, hmem⟩
    have hcomb : combine_events iso disp locals remotes
        = (locals.map (fun e => format_event e iso)).map (fun e => format_event e disp)
          ++ suffix.map (fun e => format_event e disp) := by
      unfold combine_events
      rw [heq, List.map_append]
    have hlen : locals.length
        = ((locals.map (fun e => format_event e iso)).map (fun e => format_event e disp)).length := by
      simp
    constructor
    · rw [hcomb, hlen, List.take_left]
      simp [List.map_map, Function.comp]
    · intro x hx
      rw [hcomb, hlen, List.drop_left] at hx
      rcases List.mem_map.mp hx with ⟨y, hy, rfl⟩
      have hys := hmem y hy
      refine List.mem_map.mpr ⟨y, ?_, rfl⟩
      refine List.mem_filter.mpr ⟨hys.1, ?_⟩
      simpa using hys.2
  · decide

/-- Witness for C8: a remote event matching no local is appended — it
lands in the dropped part and the theorem places it among the displayed
normalized remotes that match no normalized local. -/
theorem combine_events_local_ground_truth_witness :
    ({ name := "X", start := "3", end_ := "4" } : CalendarEvent) ∈
      (((convert_events [{ name := "X", start := "3", end_ := "4" }] hhmmFmt).map
          (fun e => format_event e hhmmFmt)).filter
        (fun e => decide (e ∉
          ([{ name := "L", start := "1", end_ := "2" }] : List CalendarEvent).map
            (fun l => format_event l hhmmFmt)))).map
        (fun e => format_event e hhmmFmt) :=
  (combine_events_local_ground_truth.1 hhmmFmt hhmmFmt
      [{ name := "L", start := "1", end_ := "2" }]
      [{ name := "X", start := "3", end_ := "4" }]).2
    { name := "X", start := "3", end_ := "4" } (by decide)

/-- The Google API start/end time object: either a `dateTime` or a
whole-day `date` field. -/
structure GoogleTime where
  dateTime : Option String
  date : Option String
deriving DecidableEq, Repr

/-- A raw Google calendar event. -/
structure GoogleEvent where
  summary : String
  start : GoogleTime
  end_ : GoogleTime
deriving DecidableEq, Repr

/-- The `try event["start"]["dateTime"] … except KeyError: …["date"]`
block of `format_google_events`: the `dateTime` pair is preferred; if
either is missing the code falls back to reading *both* `date` fields,
and a missing `date` field there is an uncaught `KeyError`. -/
def pickEventTimes (ev : GoogleEvent) : Except PyErr (String × String) :=
  match ev.start.dateTime, ev.end_.dateTime with
  | some s, some e => .ok (s, e)
  | _, _ =>
      match ev.start.date, ev.end_.date with
      | some s, some e => .ok (s, e)
      | _, _ => .error .keyErr

/-- Model of `str(get_time(event_start).date())`: the calendar-date prefix of an
ISO-style timestamp (everything before the `T` separator; a bare
`YYYY-MM-DD` date is its own date), modelling `dateutil` parsing on the
formats the Google API returns. -/
def event_date (s : String) : String :=
  String.mk (s.data.takeWhile (fun c => c != 'T'))

/-- The `for event in events_list` loop of `format_google_events`,
accumulating `filtered_events`. -/
def formatGoogleGo (d : String) : List GoogleEvent → List CalendarEvent →
    Except PyErr (List CalendarEvent)
  | [], acc => .ok acc
  | ev :: rest, acc =>
      match pickEventTimes ev with
      | .error e => .error e
      | .ok (es, ee) =>
          if event_date es ≠ d then formatGoogleGo d rest acc
          else formatGoogleGo d rest (acc ++ [{ name := ev.summary, start := es, end_ := ee }])

/-- Function `format_google_events(events_list, diary_date)`. -/
def format_google_events (events_list : List GoogleEvent) (diary_date : String) :
    Except PyErr (List CalendarEvent) :=
  formatGoogleGo diary_date events_list []

theorem formatGoogleGo_dates (d : String) :
    ∀ (events : List GoogleEvent) (acc out : List CalendarEvent),
      formatGoogleGo d events acc = .ok out →
      (∀ e ∈ acc, event_date e.start = d) →
      ∀ e ∈ out, event_date e.start = d := by
  intro events
  induction events with
  | nil =>
      intro acc out h hacc
      unfold formatGoogleGo at h
      simp only [Except.ok.injEq] at h
      rw [← h]
      exact hacc
  | cons ev rest ih =>
      intro acc out h hacc
      unfold formatGoogleGo at h
      cases hp : pickEventTimes ev with
      | error e => rw [hp] at h; exact absurd h (by simp)
      | ok p =>
          obtain ⟨es, ee⟩ := p
          simp only [hp] at h
          by_cases hd : event_date es ≠ d
          · rw [if_pos hd] at h
            exact ih acc out h hacc
          · rw [if_neg hd] at h
            refine ih _ out h ?_
            intro e he
            rcases List.mem_append.mp he with he' | he'
            · exact hacc e he'
            · rcases List.mem_singleton.mp he' with rfl
              simpa using not_not.mp hd

/-- C10: every event returned by `format_google_events` has a start
timestamp whose calendar date equals the diary date; events starting on
any other date (timed or whole-day alike) are excluded. -/
theorem format_google_events_same_date
    (events : List GoogleEvent) (diary_date : String) (out : List CalendarEvent)
    (h : format_google_events events diary_date = .ok out) :
    ∀ e ∈ out, event_date e.start = diary_date := by
  refine formatGoogleGo_dates diary_date events [] out h ?_
  intro e he
  exact absurd he (List.not_mem_nil e)

/-- A timed event on the diary date. -/
def gEvToday : GoogleEvent :=
  { summary := "m"
    start := { dateTime := some "2020-01-01T10:00", date := none }
    end_ := { dateTime := some "2020-01-01T11:00", date := none } }

/-- A whole-day event on a different date. -/
def gEvOther : GoogleEvent :=
  { summary := "w"
    start := { dateTime := none, date := some "2020-01-02" }
    end_ := { dateTime := none, date := some "2020-01-03" } }

/-- Witness for C10: the same-day timed event is kept (and its date is
the diary date), while the other-day whole-day event is dropped. -/
theorem format_google_events_same_date_witness :
    format_google_events [gEvToday, gEvOther] "2020-01-01"
      = .ok [{ name := "m", start := "2020-01-01T10:00", end_ := "2020-01-01T11:00" }] ∧
    event_date "2020-01-01T10:00" = "2020-01-01" :=
  ⟨by decide,
   format_google_events_same_date [gEvToday, gEvOther] "2020-01-01"
     [{ name := "m", start := "2020-01-01T10:00", end_ := "2020-01-01T11:00" }]
     (by decide)
     { name := "m", start := "2020-01-01T10:00", end_ := "2020-01-01T11:00" }
     (by decide)⟩
